import Mathlib

/-!
# Verification of the Cart subsystem of `src/script.js`

This file shallowly embeds the cart logic of the storefront script
(`const Cart = {...}` in `src/script.js`) into Lean and settles the
frozen claims about it.

Modelling conventions:
* JavaScript runtime values flowing through the cart are modelled by `JSVal`
  (strings, rationals standing for finite JS numbers, `NaN`, booleans,
  `null`, `undefined`, arrays and plain objects).  Binary-float rounding is
  not modelled: JS numbers are represented exactly as rationals, which is
  exact for all the integer and short-decimal arithmetic the cart performs.
* A stored cart entry is an `Option RawItem`: `none` models a falsy array
  element (`null`, `false`, `0`, `""`), `some` a truthy element, whose
  field reads (`item.id`, ...) yield `JSVal.vUndefined` when absent.
* DOM side effects (`render`, `updateBadge`, `showNotification`,
  event-listener wiring) have no observable effect on the item list or on
  `localStorage`, and are not modelled; the state is `CartState`:
  the in-memory `items` array plus the `localStorage['cart']` cell.
* `localStorage` is modelled as the single cell `Option String`;
  `JSON.parse` and `JSON.stringify` are embedded as executable functions
  (`jsonParse`, `stringifyCart`) covering the JSON fragment the cart uses.
-/

set_option maxHeartbeats 1000000

/-- A JavaScript runtime value, as used by the cart code.
`vNum` carries a rational standing for a finite JS number.
Array and plain-object values (which can enter an item's fields through
`JSON.parse`) are encoded observationally by the two strings the cart can
extract from them: `display` is what `String(v)` yields and `json` is what
`JSON.stringify(v)` yields; the cart never reads composite field values in
any other way (strict equality on composites is reference equality, and
two separately materialised composites are never identical). -/
inductive JSVal where
  | vStr (s : String)
  | vNum (q : ℚ)
  | vNaN
  | vBool (b : Bool)
  | vNull
  | vUndefined
  | vArr (display : String) (json : String)
  | vObjOpaque (json : String)
deriving DecidableEq

/-- JS truthiness (`!!v`). Arrays and objects are always truthy;
`NaN`, `null`, `undefined`, `false`, `0` and `""` are falsy. -/
def truthy : JSVal → Bool
  | .vStr s => !(s == "")
  | .vNum q => !(q == 0)
  | .vNaN => false
  | .vBool b => b
  | .vNull => false
  | .vUndefined => false
  | .vArr _ _ => true
  | .vObjOpaque _ => true

/-- `typeof v === 'string'`. -/
def isStr : JSVal → Bool
  | .vStr _ => true
  | _ => false

/-- The carried string of a string value (only meaningful when `isStr`). -/
def strOf : JSVal → String
  | .vStr s => s
  | _ => ""

/-- JS strict equality `===` on the values the cart compares.
`NaN === NaN` is false.  Arrays/objects compare by reference in JS; two
separately materialised composites are never identical, so the model
returns `false` for them (the cart only ever compares ids, which are
strings in every reachable comparison). -/
def jsStrictEq : JSVal → JSVal → Bool
  | .vStr a, .vStr b => a == b
  | .vNum a, .vNum b => a == b
  | .vBool a, .vBool b => a == b
  | .vNull, .vNull => true
  | .vUndefined, .vUndefined => true
  | _, _ => false

/-- JSON/JS whitespace accepted by the model (space, tab, LF, CR). -/
def jsonWs (c : Char) : Bool :=
  c == ' ' || c == '\t' || c == '\n' || c == '\r'

/-- Drop leading whitespace. -/
def skipWs : List Char → List Char
  | c :: cs => if jsonWs c then skipWs cs else c :: cs
  | [] => []

/-- Longest prefix of decimal digits. -/
def takeDigits : List Char → List Char × List Char
  | c :: cs =>
    if c.isDigit then
      let (d, r) := takeDigits cs
      (c :: d, r)
    else ([], c :: cs)
  | [] => ([], [])

/-- Decimal digits to a natural number. -/
def digitsToNat (ds : List Char) : Nat :=
  ds.foldl (fun a c => a * 10 + (c.toNat - 48)) 0

/-- Is `c` a hexadecimal digit? -/
def isHexDigit (c : Char) : Bool :=
  c.isDigit || ('a' ≤ c && c ≤ 'f') || ('A' ≤ c && c ≤ 'F')

/-- Value of a hexadecimal digit. -/
def hexDigitVal (c : Char) : Nat :=
  if c.isDigit then c.toNat - 48
  else if 'a' ≤ c && c ≤ 'f' then c.toNat - 87
  else if 'A' ≤ c && c ≤ 'F' then c.toNat - 55
  else 0

/-- Longest prefix of hexadecimal digits. -/
def takeHexDigits : List Char → List Char × List Char
  | c :: cs =>
    if isHexDigit c then
      let (d, r) := takeHexDigits cs
      (c :: d, r)
    else ([], c :: cs)
  | [] => ([], [])

/-- Hexadecimal digits to a natural number. -/
def hexToNat (ds : List Char) : Nat :=
  ds.foldl (fun a c => a * 16 + hexDigitVal c) 0

/-- Truncation of a rational toward zero, matching what `parseInt` does to
the decimal rendering of a finite JS number (exponent-notation renderings
of extreme magnitudes are not modelled). -/
def ratTrunc (q : ℚ) : Int :=
  Int.tdiv q.num (q.den : Int)

/-- `parseInt(s)` for a string argument: skip leading whitespace, optional
sign, then either a `0x`/`0X` hexadecimal literal or a decimal-digit
prefix; no digits means `NaN` (`none`). -/
def parseIntStr (s : String) : Option Int :=
  let cs := skipWs s.toList
  let (sgn, cs) :=
    match cs with
    | '-' :: r => ((-1 : Int), r)
    | '+' :: r => ((1 : Int), r)
    | r => ((1 : Int), r)
  let hexRest : Option (List Char) :=
    match cs with
    | '0' :: c :: r => if c == 'x' || c == 'X' then some r else none
    | _ => none
  match hexRest with
  | some r =>
    let (ds, _) := takeHexDigits r
    if ds.isEmpty then none else some (sgn * (hexToNat ds : Int))
  | none =>
    let (ds, _) := takeDigits cs
    if ds.isEmpty then none else some (sgn * (digitsToNat ds : Int))

/-- Hexadecimal digit character for `n < 16`. -/
def hexChar (n : Nat) : Char :=
  if n < 10 then Char.ofNat (48 + n) else Char.ofNat (87 + n)

/-- JSON string escaping of one character, as `JSON.stringify` performs it. -/
def escJsonChar (c : Char) : String :=
  if c == '"' then "\\\""
  else if c == '\\' then "\\\\"
  else if c == '\n' then "\\n"
  else if c == '\t' then "\\t"
  else if c == '\r' then "\\r"
  else if c.toNat < 32 then
    "\\u00" ++ String.mk [hexChar (c.toNat / 16), hexChar (c.toNat % 16)]
  else String.singleton c

/-- `JSON.stringify` of a string value. -/
def quoteJson (s : String) : String :=
  "\"" ++ String.join (s.toList.map escJsonChar) ++ "\""

/-- Decimal rendering of a finite JS number (`String(n)` / `n.toString()`).
Exact for integers and for rationals with a terminating decimal expansion
of at most 30 fractional digits, which covers every value the cart
computes; exponent-notation renderings of extreme magnitudes are not
modelled. -/
def numToString (q : ℚ) : String :=
  if q.den == 1 then toString q.num
  else if (10 : Nat) ^ 30 % q.den == 0 then
    let scaled : Nat := q.num.natAbs * ((10 : Nat) ^ 30 / q.den)
    let ds := (toString scaled).toList
    let ds := List.replicate (31 - ds.length) '0' ++ ds
    let fracRev := (ds.reverse.take 30).dropWhile (fun c => c == '0')
    let intPart := (ds.reverse.drop 30).reverse
    (if q.num < 0 then "-" else "") ++ String.mk intPart ++ "." ++
      String.mk fracRev.reverse
  else
    toString q.num ++ "/" ++ toString q.den

/-- JS `String(v)` conversion. -/
def jsToString : JSVal → String
  | .vStr s => s
  | .vNum q => numToString q
  | .vNaN => "NaN"
  | .vBool b => if b then "true" else "false"
  | .vNull => "null"
  | .vUndefined => "undefined"
  | .vArr d _ => d
  | .vObjOpaque _ => "[object Object]"

/-- JS `parseInt(v)` (radix auto-detected): `none` models `NaN`.
Non-string arguments are first converted with `String(v)`; for a finite
number that conversion followed by the digit scan truncates toward zero. -/
def jsParseInt (v : JSVal) : Option Int :=
  match v with
  | .vNum q => some (ratTrunc q)
  | .vStr s => parseIntStr s
  | .vArr d _ => parseIntStr d
  | _ => none

/-- Value of `intDs . fracDs` as a rational. -/
def decDigitsVal (intDs fracDs : List Char) : ℚ :=
  (digitsToNat intDs : ℚ) + (digitsToNat fracDs : ℚ) / (10 : ℚ) ^ fracDs.length

/-- Full-string decimal literal (`ToNumber` on strings requires the whole
remaining input to be consumed, unlike `parseInt`/`parseFloat`). -/
def decNumFull (cs : List Char) : Option ℚ :=
  let (d1, r1) := takeDigits cs
  let (d2, r2) :=
    match r1 with
    | '.' :: rr => takeDigits rr
    | _ => ([], r1)
  if d1.isEmpty && d2.isEmpty then none
  else
    let base := decDigitsVal d1 d2
    match r2 with
    | [] => some base
    | e :: rr =>
      if e == 'e' || e == 'E' then
        let (epos, rr2) :=
          match rr with
          | '-' :: r3 => (false, r3)
          | '+' :: r3 => (true, r3)
          | r3 => (true, r3)
        let (eds, r4) := takeDigits rr2
        if eds.isEmpty || !r4.isEmpty then none
        else some (if epos then base * (10 : ℚ) ^ digitsToNat eds
                   else base / (10 : ℚ) ^ digitsToNat eds)
      else none

/-- Signed full-string decimal literal. -/
def decSigned (cs : List Char) : Option ℚ :=
  match cs with
  | '-' :: r => (decNumFull r).map (fun q => -q)
  | '+' :: r => decNumFull r
  | r => decNumFull r

/-- Trim JS whitespace from both ends. -/
def trimWs (s : String) : List Char :=
  ((skipWs s.toList).reverse.dropWhile jsonWs).reverse

/-- JS `ToNumber` on a string: trimmed-empty is `0`, otherwise the whole
trimmed string must be a numeric literal (`none` models `NaN`;
the `Infinity` literal is not modelled and yields `none`). -/
def strToNumber (s : String) : Option ℚ :=
  let cs := trimWs s
  match cs with
  | [] => some 0
  | '0' :: c :: r =>
    if c == 'x' || c == 'X' then
      let (ds, r4) := takeHexDigits r
      if ds.isEmpty || !r4.isEmpty then none else some ((hexToNat ds : ℚ))
    else decSigned cs
  | _ => decSigned cs

/-- JS `ToNumber` coercion: `none` models `NaN`. -/
def jsToNumber (v : JSVal) : Option ℚ :=
  match v with
  | .vNum q => some q
  | .vNaN => none
  | .vStr s => strToNumber s
  | .vBool b => some (if b then 1 else 0)
  | .vNull => some 0
  | .vUndefined => none
  | .vArr d _ => strToNumber d
  | .vObjOpaque _ => none

/-- `s.replace(/[^\d.]/g, '')`: keep only digits and dots. -/
def stripNonDigitDot (s : String) : String :=
  String.mk (s.toList.filter (fun c => c.isDigit || c == '.'))

/-- JS `parseFloat(s)`: skip leading whitespace, optional sign, longest
decimal prefix; `none` models `NaN`.  (The cart only applies it to
strings already stripped to digits and dots, so exponent notation and
`Infinity` never occur and are not modelled.) -/
def jsParseFloat (s : String) : Option ℚ :=
  let cs := skipWs s.toList
  let (sgn, cs) :=
    match cs with
    | '-' :: r => ((-1 : ℚ), r)
    | '+' :: r => ((1 : ℚ), r)
    | r => ((1 : ℚ), r)
  let (d1, r1) := takeDigits cs
  let (d2, _) :=
    match r1 with
    | '.' :: rr => takeDigits rr
    | _ => ([], r1)
  if d1.isEmpty && d2.isEmpty then none
  else some (sgn * decDigitsVal d1 d2)

/-- JS `a || b`. -/
def jsOr (a b : JSVal) : JSVal :=
  if truthy a then a else b

/-- JS `v + n` for an integer right operand, as used by
`quantity += qty` / `quantity += 1` in the cart. -/
def jsAddInt (v : JSVal) (n : Int) : JSVal :=
  match v with
  | .vNum q => .vNum (q + (n : ℚ))
  | .vNaN => .vNaN
  | .vStr s => .vStr (s ++ toString n)
  | .vNull => .vNum (n : ℚ)
  | .vBool b => .vNum ((if b then 1 else 0) + (n : ℚ))
  | .vUndefined => .vNaN
  | .vArr d _ => .vStr (d ++ toString n)
  | .vObjOpaque _ => .vStr ("[object Object]" ++ toString n)

/-- Left brace character, written via its code point. -/
def lbChar : Char := Char.ofNat 123

/-- Right brace character, written via its code point. -/
def rbChar : Char := Char.ofNat 125

/-- Left brace as a string. -/
def lbStr : String := String.singleton lbChar

/-- Right brace as a string. -/
def rbStr : String := String.singleton rbChar

/-- JSON document values, as produced by `JSON.parse`. -/
inductive Json where
  | jNull
  | jBool (b : Bool)
  | jNum (q : ℚ)
  | jStr (s : String)
  | jArr (elems : List Json)
  | jObj (kvs : List (String × Json))

/-- Insert a key/value pair into an object under construction:
`JSON.parse` keeps the first position but the last value for a
duplicated key. -/
def insertKV (kvs : List (String × Json)) (k : String) (v : Json) :
    List (String × Json) :=
  match kvs with
  | [] => [(k, v)]
  | (k0, v0) :: rest =>
    if k0 == k then (k0, v) :: rest else (k0, v0) :: insertKV rest k v

/-- Decode a one-character JSON escape (everything except `\uXXXX`). -/
def escSimple (e : Char) : Option Char :=
  if e == '"' then some '"'
  else if e == '\\' then some '\\'
  else if e == '/' then some '/'
  else if e == 'b' then some (Char.ofNat 8)
  else if e == 'f' then some (Char.ofNat 12)
  else if e == 'n' then some '\n'
  else if e == 'r' then some '\r'
  else if e == 't' then some '\t'
  else none

/-- Parse the remainder of a JSON string literal (the opening quote has
been consumed); returns the decoded string and the rest of the input.
Unescaped control characters are rejected, as `JSON.parse` rejects them. -/
def parseStrRest : List Char → Option (String × List Char)
  | [] => none
  | c :: cs =>
    if c == '"' then some ("", cs)
    else if c == '\\' then
      match cs with
      | [] => none
      | e :: cs2 =>
        if e == 'u' then
          match cs2 with
          | h1 :: h2 :: h3 :: h4 :: cs3 =>
            if isHexDigit h1 && isHexDigit h2 && isHexDigit h3 &&
               isHexDigit h4 then
              match parseStrRest cs3 with
              | some (s, rest2) =>
                some (String.singleton (Char.ofNat (hexToNat [h1, h2, h3, h4]))
                  ++ s, rest2)
              | none => none
            else none
          | _ => none
        else
          match escSimple e with
          | some ch =>
            match parseStrRest cs2 with
            | some (s, rest2) => some (String.singleton ch ++ s, rest2)
            | none => none
          | none => none
    else if c.toNat < 32 then none
    else
      match parseStrRest cs with
      | some (s, rest) => some (String.singleton c ++ s, rest)
      | none => none

/-- Parse a JSON number (strict JSON grammar:
`-? (0 | [1-9][0-9]*) frac? exp?`). -/
def parseJsonNum (cs : List Char) : Option (ℚ × List Char) :=
  let (neg, cs) :=
    match cs with
    | '-' :: r => (true, r)
    | r => (false, r)
  match cs with
  | '0' :: r =>
    -- leading zero: the integer part is exactly 0 (JSON forbids `01`)
    parseJsonNumRest neg 0 r
  | _ =>
    let (ds, r) := takeDigits cs
    if ds.isEmpty then none else parseJsonNumRest neg (digitsToNat ds) r
where
  /-- Fraction and exponent parts, applied to integer part `ip`. -/
  parseJsonNumRest (neg : Bool) (ip : Nat) (cs : List Char) :
      Option (ℚ × List Char) :=
    let (frac, cs2) :=
      match cs with
      | '.' :: rr => takeDigits rr
      | _ => ([], cs)
    let fracOk :=
      match cs with
      | '.' :: _ => !frac.isEmpty
      | _ => true
    if !fracOk then none
    else
      let base : ℚ := (ip : ℚ) + (digitsToNat frac : ℚ) / (10 : ℚ) ^ frac.length
      let contExp : Option (ℚ × List Char) :=
        match cs2 with
        | e :: rr =>
          if e == 'e' || e == 'E' then
            let (epos, rr2) :=
              match rr with
              | '-' :: r3 => (false, r3)
              | '+' :: r3 => (true, r3)
              | r3 => (true, r3)
            let (eds, r4) := takeDigits rr2
            if eds.isEmpty then none
            else some (if epos then base * (10 : ℚ) ^ digitsToNat eds
                       else base / (10 : ℚ) ^ digitsToNat eds, r4)
          else some (base, cs2)
        | [] => some (base, cs2)
      match contExp with
      | none => none
      | some (v, rest) => some (if neg then -v else v, rest)

mutual

/-- Parse one JSON value (fuel-bounded recursive-descent; the fuel is set
to exceed the input length, which each recursive call strictly consumes). -/
def parseJsonVal : Nat → List Char → Option (Json × List Char)
  | 0, _ => none
  | Nat.succ fuel, cs =>
    let cs := skipWs cs
    match cs with
    | 'n' :: 'u' :: 'l' :: 'l' :: r => some (.jNull, r)
    | 't' :: 'r' :: 'u' :: 'e' :: r => some (.jBool true, r)
    | 'f' :: 'a' :: 'l' :: 's' :: 'e' :: r => some (.jBool false, r)
    | '"' :: r =>
      match parseStrRest r with
      | some (s, rest) => some (.jStr s, rest)
      | none => none
    | '[' :: r =>
      let r2 := skipWs r
      match r2 with
      | ']' :: rest => some (.jArr [], rest)
      | _ =>
        match parseJsonElems fuel r2 with
        | some (xs, rest) => some (.jArr xs, rest)
        | none => none
    | c :: r =>
      if c == lbChar then
        let r2 := skipWs r
        match r2 with
        | c2 :: rest =>
          if c2 == rbChar then some (.jObj [], rest)
          else
            match parseJsonMembers fuel r2 with
            | some (kvs, rest2) => some (.jObj kvs, rest2)
            | none => none
        | [] => none
      else if c == '-' || c.isDigit then
        match parseJsonNum (c :: r) with
        | some (q, rest) => some (.jNum q, rest)
        | none => none
      else none
    | [] => none

/-- Parse one or more comma-separated array elements, then `]`. -/
def parseJsonElems : Nat → List Char → Option (List Json × List Char)
  | 0, _ => none
  | Nat.succ fuel, cs =>
    match parseJsonVal fuel cs with
    | none => none
    | some (v, rest) =>
      let rest := skipWs rest
      match rest with
      | ']' :: r2 => some ([v], r2)
      | ',' :: r2 =>
        match parseJsonElems fuel r2 with
        | some (xs, r3) => some (v :: xs, r3)
        | none => none
      | _ => none

/-- Parse one or more comma-separated object members, then the closing
brace; duplicate keys keep the first position and the last value. -/
def parseJsonMembers : Nat → List Char → Option (List (String × Json) × List Char)
  | 0, _ => none
  | Nat.succ fuel, cs =>
    let cs := skipWs cs
    match cs with
    | '"' :: r =>
      match parseStrRest r with
      | none => none
      | some (k, rest) =>
        let rest := skipWs rest
        match rest with
        | ':' :: r2 =>
          match parseJsonVal fuel r2 with
          | none => none
          | some (v, r3) =>
            let r3 := skipWs r3
            match r3 with
            | ',' :: r4 =>
              match parseJsonMembers fuel r4 with
              | some (kvs, r5) => some (insertKV kvs k v, r5)
              | none => none
            | c :: r4 =>
              if c == rbChar then some ([(k, v)], r4) else none
            | [] => none
        | _ => none
    | _ => none

end

/-- `JSON.parse`: the whole input must be one JSON value, up to
surrounding whitespace. -/
def jsonParse (s : String) : Option Json :=
  match parseJsonVal (s.length + 1) s.toList with
  | some (v, rest) => if (skipWs rest).isEmpty then some v else none
  | none => none

mutual

/-- `JSON.stringify` of a parsed JSON value. -/
def jsonStringify : Json → String
  | .jNull => "null"
  | .jBool b => if b then "true" else "false"
  | .jNum q => numToString q
  | .jStr s => quoteJson s
  | .jArr xs => "[" ++ String.intercalate "," (jsonStringifyElems xs) ++ "]"
  | .jObj kvs => lbStr ++ String.intercalate "," (jsonStringifyMembers kvs) ++ rbStr

/-- Serialisations of the elements of a JSON array. -/
def jsonStringifyElems : List Json → List String
  | [] => []
  | x :: xs => jsonStringify x :: jsonStringifyElems xs

/-- Serialisations of the members of a JSON object. -/
def jsonStringifyMembers : List (String × Json) → List String
  | [] => []
  | (k, v) :: kvs => (quoteJson k ++ ":" ++ jsonStringify v) :: jsonStringifyMembers kvs

end

mutual

/-- JS display string of a JSON value in array-join position
(`null` displays as the empty string inside `Array.prototype.join`). -/
def jsonElemDisplay : Json → String
  | .jNull => ""
  | .jBool b => if b then "true" else "false"
  | .jNum q => numToString q
  | .jStr s => s
  | .jArr xs => String.intercalate "," (jsonElemDisplays xs)
  | .jObj _ => "[object Object]"

/-- Display strings of the elements of a JSON array. -/
def jsonElemDisplays : List Json → List String
  | [] => []
  | x :: xs => jsonElemDisplay x :: jsonElemDisplays xs

end

/-- Convert a parsed JSON value into the flat `JSVal` a cart-item field
holds; composites are encoded by their display and re-serialisation
strings (the only observations the cart makes of them). -/
def jsonToField : Json → JSVal
  | .jNull => .vNull
  | .jBool b => .vBool b
  | .jNum q => .vNum q
  | .jStr s => .vStr s
  | .jArr xs => .vArr (jsonElemDisplay (.jArr xs)) (jsonStringify (.jArr xs))
  | .jObj kvs => .vObjOpaque (jsonStringify (.jObj kvs))

/-- One product line of the cart.  Absent fields hold `vUndefined`.
(Extra JSON keys beyond these six are not representable; no cart
operation or claim observes them.) -/
structure RawItem where
  id : JSVal := .vUndefined
  name : JSVal := .vUndefined
  price : JSVal := .vUndefined
  quantity : JSVal := .vUndefined
  image : JSVal := .vUndefined
  category : JSVal := .vUndefined
deriving DecidableEq

/-- A decoded element of the stored array: `none` models a falsy element
(`null`, `false`, `0`, `""`); truthy non-object elements behave exactly
like objects with no fields for everything the cart does with them. -/
abbrev JSItem := Option RawItem

/-- Read field `k` of a parsed JSON object. -/
def objField (kvs : List (String × Json)) (k : String) : JSVal :=
  match kvs.find? (fun kv => kv.1 == k) with
  | some kv => jsonToField kv.2
  | none => .vUndefined

/-- Decode one element of the stored array. -/
def jsonToItem (j : Json) : JSItem :=
  match j with
  | .jNull => none
  | .jBool b => if b then some (⟨.vUndefined, .vUndefined, .vUndefined,
      .vUndefined, .vUndefined, .vUndefined⟩ : RawItem) else none
  | .jNum q => if q == 0 then none else some ⟨.vUndefined, .vUndefined,
      .vUndefined, .vUndefined, .vUndefined, .vUndefined⟩
  | .jStr s => if s == "" then none else some ⟨.vUndefined, .vUndefined,
      .vUndefined, .vUndefined, .vUndefined, .vUndefined⟩
  | .jArr _ => some ⟨.vUndefined, .vUndefined, .vUndefined, .vUndefined,
      .vUndefined, .vUndefined⟩
  | .jObj kvs => some ⟨objField kvs ("id"), objField kvs ("name"),
      objField kvs ("price"), objField kvs ("quantity"),
      objField kvs ("image"), objField kvs ("category")⟩

/-- Decode a stored string into the item list `init` would hold after
`JSON.parse`.  A parse error, or a parse result that is not an array
(on which `this.items.filter` throws inside the same `try` block),
is a decode failure (`none`). -/
def decodeItemList (s : String) : Option (List JSItem) :=
  match jsonParse s with
  | some (.jArr xs) => some (xs.map jsonToItem)
  | _ => none

/-- The filter predicate of `validate` step 1:
`item && item.id && typeof item.id === 'string' && item.name`. -/
def validRaw (it : RawItem) : Bool :=
  truthy it.id && isStr it.id && truthy it.name

/-- `validate` step 1 on one decoded element. -/
def validItem : JSItem → Option RawItem
  | none => none
  | some it => if validRaw it then some it else none

/-- `validate` step 1: drop falsy elements and elements without a truthy
string `id` and truthy `name`. -/
def filterValid (l : List JSItem) : List RawItem :=
  l.filterMap validItem

/-- `validate`'s quantity normalisation:
`let qty = parseInt(item.quantity); if (isNaN(qty) || qty < 1) qty = 1`. -/
def normQty (it : RawItem) : Int :=
  match jsParseInt it.quantity with
  | none => 1
  | some n => if n < 1 then 1 else n

/-- `validate`'s price normalisation:
`if (typeof priceStr !== 'string') priceStr = String(priceStr || '0')`. -/
def normPriceV (v : JSVal) : JSVal :=
  if isStr v then v else .vStr (jsToString (jsOr v (.vStr ("0"))))

/-- The entry stored in `uniqueItems` for the first occurrence of an id:
`{ ...item, id: id, quantity: qty, price: priceStr }`. -/
def mkEntry (it : RawItem) : RawItem :=
  { it with quantity := .vNum ((normQty it : ℤ) : ℚ), price := normPriceV it.price }

/-- Key of an item in `uniqueItems` (its id, a string for every item that
survived the filter). -/
def itemKey (it : RawItem) : String :=
  strOf it.id

/-- Lookup in the insertion-ordered association list modelling the
`uniqueItems` object. -/
def alookup (k : String) : List (String × RawItem) → Option RawItem
  | [] => none
  | (k0, v) :: rest => if k0 == k then some v else alookup k rest

/-- In-place `uniqueItems[id].quantity += qty` on the association list. -/
def abump (k : String) (n : Int) : List (String × RawItem) → List (String × RawItem)
  | [] => []
  | (k0, v) :: rest =>
    if k0 == k then (k0, { v with quantity := jsAddInt v.quantity n }) :: rest
    else (k0, v) :: abump k n rest

/-- One iteration of `validate`'s dedup `forEach`. -/
def dedupeStep (acc : List (String × RawItem)) (it : RawItem) :
    List (String × RawItem) :=
  let k := itemKey it
  match alookup k acc with
  | some _ => abump k (normQty it) acc
  | none => acc ++ [(k, mkEntry it)]

/-- `validate` step 2: fold the surviving items into `uniqueItems`. -/
def dedupe (l : List RawItem) : List (String × RawItem) :=
  l.foldl dedupeStep []

/-- Digits-only parse of a string: `some` iff the string is nonempty and
all characters are decimal digits (an executable `String.toNat?`). -/
def strDigitsNat (s : String) : Option Nat :=
  if s.toList ≠ [] ∧ s.toList.all Char.isDigit then some (digitsToNat s.toList)
  else none

/-- Is `s` a canonical array-index property key (the ECMAScript ordering
rule: `"0" ≤ s ≤ "4294967294"`, canonical decimal form)?  Such keys are
enumerated first, in ascending numeric order, by `Object.values`. -/
def isArrayIndexKey (s : String) : Bool :=
  match strDigitsNat s with
  | some n => (s == toString n) && n < 4294967295
  | none => false

/-- Numeric value of an array-index key. -/
def keyNat (s : String) : Nat :=
  (strDigitsNat s).getD 0

/-- Ordering of array-index keys used by `Object.values`. -/
def keyLe (a b : String × RawItem) : Prop :=
  keyNat a.1 ≤ keyNat b.1

instance : DecidableRel keyLe :=
  fun a b => Nat.decLe (keyNat a.1) (keyNat b.1)

/-- `Object.values(uniqueItems)`: array-index keys first in ascending
numeric order, then the remaining keys in insertion order. -/
def objectValues (kvs : List (String × RawItem)) : List RawItem :=
  (List.insertionSort keyLe (kvs.filter (fun kv => isArrayIndexKey kv.1)) ++
    kvs.filter (fun kv => !isArrayIndexKey kv.1)).map Prod.snd

/-- The pure list transform performed by `Cart.validate`. -/
def validateItems (l : List JSItem) : List RawItem :=
  objectValues (dedupe (filterValid l))

/-- The cart's observable state: the in-memory item list and the
`localStorage['cart']` cell. -/
structure CartState where
  items : List RawItem
  storage : Option String
deriving DecidableEq

/-- `JSON.stringify` of one cart-item field value (`none`: the field is
`undefined` and `JSON.stringify` omits it; `NaN` serialises as `null`). -/
def stringifyField (v : JSVal) : Option String :=
  match v with
  | .vUndefined => none
  | .vNaN => some ("null")
  | .vNull => some ("null")
  | .vBool b => some (if b then "true" else "false")
  | .vNum q => some (numToString q)
  | .vStr s => some (quoteJson s)
  | .vArr _ j => some j
  | .vObjOpaque j => some j

/-- The six modelled fields of an item, in the fixed serialisation order
of the model.  (JS would serialise in the object's own key-insertion
order; the model's storage strings are only ever compared with each
other, never with literal JS output, so a fixed order is sound.) -/
def itemFields (it : RawItem) : List (String × JSVal) :=
  [("id", it.id), ("name", it.name), ("price", it.price),
   ("quantity", it.quantity), ("image", it.image), ("category", it.category)]

/-- `JSON.stringify` of one cart item. -/
def stringifyItem (it : RawItem) : String :=
  lbStr ++ String.intercalate ","
    ((itemFields it).filterMap (fun kv =>
      (stringifyField kv.2).map (fun sv => quoteJson kv.1 ++ ":" ++ sv))) ++ rbStr

/-- `JSON.stringify(this.items)`. -/
def stringifyCart (items : List RawItem) : String :=
  "[" ++ String.intercalate "," (items.map stringifyItem) ++ "]"

/-- `save()`: write the serialised item list to the storage cell. -/
def saveStr (items : List RawItem) : Option String :=
  some (stringifyCart items)

/-- `Cart.validate()` as a state transform: runs the list transform and
persists the cleaned list exactly when its length differs from the
pre-filter length. -/
def Cart.validate (raw : List JSItem) (stor : Option String) : CartState :=
  let fixed := validateItems raw
  if fixed.length ≠ raw.length then { items := fixed, storage := saveStr fixed }
  else { items := fixed, storage := stor }

/-- `Cart.init()`: load the stored value (a falsy/absent value is
skipped), decode it, and validate.  A decode failure is caught
(`try`/`catch`) and resets the in-memory list to empty without touching
storage; no exception escapes (the model is a total function). -/
def Cart.init (stored : Option String) : CartState :=
  match stored with
  | none => { items := [], storage := none }
  | some s =>
    if s == "" then { items := [], storage := some s }
    else
      match decodeItemList s with
      | none => { items := [], storage := some s }
      | some l => Cart.validate l (some s)

/-- Apply `f` to the first list element satisfying `p` (the element
`Array.prototype.find` returns, mutated in place). -/
def setFirstMatch (p : RawItem → Bool) (f : RawItem → RawItem) :
    List RawItem → List RawItem
  | [] => []
  | x :: xs => if p x then f x :: xs else x :: setFirstMatch p f xs

/-- `add`'s in-place price coercion on its argument:
`if (product.price && typeof product.price !== 'string')
   product.price = String(product.price)`. -/
def addFixPrice (product : RawItem) : RawItem :=
  if truthy product.price && !isStr product.price then
    { product with price := .vStr (jsToString product.price) }
  else product

/-- `Cart.add(product)`.  The returned `RawItem` is the argument object
after the call — `add` mutates `product.price` in place, an effect the
caller can observe, which the model exposes by returning it. -/
def Cart.add (product : RawItem) (st : CartState) : CartState × RawItem :=
  if !truthy product.id then (st, product)
  else
    let product := addFixPrice product
    let items :=
      if st.items.any (fun it => jsStrictEq it.id product.id) then
        setFirstMatch (fun it => jsStrictEq it.id product.id)
          (fun it => { it with quantity := jsAddInt it.quantity 1 }) st.items
      else st.items ++ [{ product with quantity := .vNum 1 }]
    ({ items := items, storage := saveStr items }, product)

/-- `Cart.remove(productId)`: drop every item whose id is strictly equal
to the given string, persist. -/
def Cart.remove (productId : String) (st : CartState) : CartState :=
  let items := st.items.filter (fun it => !jsStrictEq it.id (.vStr productId))
  { items := items, storage := saveStr items }

/-- `Cart.updateQuantity(productId, quantity)`.  Note the `NaN` path:
when `parseInt(quantity)` is `NaN`, the comparison `newQty <= 0` is
false, so the `else` branch runs and stores `NaN` as the quantity. -/
def Cart.updateQuantity (productId : String) (quantity : JSVal)
    (st : CartState) : CartState :=
  if st.items.any (fun it => jsStrictEq it.id (.vStr productId)) then
    match jsParseInt quantity with
    | some n =>
      if n ≤ 0 then Cart.remove productId st
      else
        let items := setFirstMatch (fun it => jsStrictEq it.id (.vStr productId))
          (fun it => { it with quantity := .vNum (n : ℚ) }) st.items
        { items := items, storage := saveStr items }
    | none =>
      let items := setFirstMatch (fun it => jsStrictEq it.id (.vStr productId))
        (fun it => { it with quantity := .vNaN }) st.items
      { items := items, storage := saveStr items }
  else st

/-- `Cart.clear()`. -/
def Cart.clear (_st : CartState) : CartState :=
  { items := [], storage := saveStr [] }

/-- The quantity factor of one line of `getTotal`:
`(item.quantity || 1)` used as the right operand of `*`
(`none` models `NaN`). -/
def lineQty (v : JSVal) : Option ℚ :=
  if truthy v then jsToNumber v else some 1

/-- The price factor of one line of `getTotal`: coerce to string,
strip non-digit non-dot characters, `parseFloat`, default `0`. -/
def linePrice (v : JSVal) : ℚ :=
  let priceStr := if isStr v then strOf v else jsToString (jsOr v (.vStr ("0")))
  match jsParseFloat (stripNonDigitDot priceStr) with
  | some p => p
  | none => 0

/-- JS addition on possibly-`NaN` numbers. -/
def optAdd : Option ℚ → Option ℚ → Option ℚ
  | some a, some b => some (a + b)
  | _, _ => none

/-- JS multiplication on possibly-`NaN` numbers. -/
def optMul : Option ℚ → Option ℚ → Option ℚ
  | some a, some b => some (a * b)
  | _, _ => none

/-- `Cart.getTotal()`: a pure fold over the item list; it touches neither
the item list nor storage (it is a function of the items only). -/
def Cart.getTotal (items : List RawItem) : Option ℚ :=
  items.foldl
    (fun tot it => optAdd tot (optMul (some (linePrice it.price)) (lineQty it.quantity)))
    (some 0)

/-! ## Spec-side reference functions and basic lemmas -/

/-- First-occurrence deduplication of a key list, excluding keys already
`seen` (the insertion order of keys in a JS object literal built by
repeated assignment). -/
def firstDedupAux (seen : List String) : List String → List String
  | [] => []
  | k :: rest =>
    if k ∈ seen then firstDedupAux seen rest
    else k :: firstDedupAux (seen ++ [k]) rest

/-- First-occurrence deduplication of a key list. -/
def firstDedup (ks : List String) : List String :=
  firstDedupAux [] ks

/-- Total normalised quantity of all items with key `k` in a list. -/
def totQty (k : String) (l : List RawItem) : Int :=
  ((l.filter (fun it => itemKey it == k)).map normQty).sum

/-- Is this quantity value a (JS) number that is a positive integer? -/
def isGoodQty : JSVal → Bool
  | .vNum q => q.den == 1 && 1 ≤ q.num
  | _ => false

/-- Do all items of the list carry positive-integer quantities? -/
def goodQtysB (items : List RawItem) : Bool :=
  items.all (fun it => isGoodQty it.quantity)

/-- The claim's price formula: numeric price parsed from the price string
after stripping non-digit non-dot characters, defaulting to 0. -/
def specPrice (it : RawItem) : ℚ :=
  match jsParseFloat (stripNonDigitDot (strOf it.price)) with
  | some p => p
  | none => 0

/-- The claim's quantity factor: the numeric quantity, defaulting to 1
when missing. -/
def specLineQty : JSVal → ℚ
  | .vNum q => q
  | _ => 1

/-- The claim's total formula: a plain sum over the items. -/
def specTotal (items : List RawItem) : ℚ :=
  (items.map (fun it => specPrice it * specLineQty it.quantity)).sum

/-- Hypothesis under which `getTotal` is compared with the claim formula:
the price is a string and the quantity is a nonzero number or absent. -/
def priceQtyOk (it : RawItem) : Bool :=
  isStr it.price &&
    (match it.quantity with
     | .vUndefined => true
     | .vNum q => !(q == 0)
     | _ => false)

theorem ratTrunc_nonpos {q : ℚ} (h : q ≤ 0) : ratTrunc q ≤ 0 := by
  unfold ratTrunc
  have hn : q.num ≤ 0 := Rat.num_nonpos.mpr h
  have hd : (0 : ℤ) ≤ (q.den : ℤ) := Int.ofNat_nonneg q.den
  have h2 := Int.tdiv_nonneg (a := -q.num) (b := (q.den : ℤ)) (by omega) hd
  rw [Int.neg_tdiv] at h2
  omega

theorem ratTrunc_intCast (n : ℤ) : ratTrunc ((n : ℤ) : ℚ) = n := by
  unfold ratTrunc
  rw [Rat.num_intCast, Rat.den_intCast]
  exact Int.tdiv_one n

theorem jsAddInt_vNum (q : ℚ) (n : ℤ) :
    jsAddInt (.vNum q) n = .vNum (q + (n : ℚ)) := rfl

theorem addFixPrice_id (p : RawItem) : (addFixPrice p).id = p.id := by
  unfold addFixPrice
  split <;> rfl

theorem normQty_pos (it : RawItem) : 1 ≤ normQty it := by
  unfold normQty
  match jsParseInt it.quantity with
  | none => exact le_refl 1
  | some n =>
    simp only
    split <;> omega

theorem setFirstMatch_append (p : RawItem → Bool) (f : RawItem → RawItem)
    (l1 : List RawItem) (it : RawItem) (l2 : List RawItem)
    (h1 : ∀ j ∈ l1, p j = false) (h2 : p it = true) :
    setFirstMatch p f (l1 ++ it :: l2) = l1 ++ f it :: l2 := by
  induction l1 with
  | nil => simp [setFirstMatch, h2]
  | cons a l ih =>
    have ha := h1 a (by simp)
    have ih2 := ih (fun j hj => h1 j (by simp [hj]))
    simp only [List.cons_append, setFirstMatch, ha, Bool.false_eq_true, if_false]
    exact congrArg (fun t => a :: t) ih2

theorem mem_setFirstMatch (p : RawItem → Bool) (f : RawItem → RawItem)
    (l : List RawItem) (y : RawItem) (hy : y ∈ setFirstMatch p f l) :
    y ∈ l ∨ ∃ x ∈ l, y = f x := by
  induction l with
  | nil => simp [setFirstMatch] at hy
  | cons a l ih =>
    simp only [setFirstMatch] at hy
    by_cases hpa : p a = true
    · rw [if_pos hpa] at hy
      rcases List.mem_cons.mp hy with h | h
      · exact Or.inr ⟨a, by simp, h⟩
      · exact Or.inl (List.mem_cons_of_mem a h)
    · rw [if_neg hpa] at hy
      rcases List.mem_cons.mp hy with h | h
      · exact Or.inl (by simp [h])
      · rcases ih h with h2 | ⟨x, hx, hfx⟩
        · exact Or.inl (List.mem_cons_of_mem a h2)
        · exact Or.inr ⟨x, List.mem_cons_of_mem a hx, hfx⟩

/-! ## Claim C5 — non-positive `updateQuantity` collapses to `remove` -/

/-- C5: for every cart state containing an item with id `x` and every
numeric quantity `q ≤ 0`, `updateQuantity(x, q)` produces exactly the
state (item list and persisted storage) of `remove(x)`. -/
theorem claim_C5_nonpos_update_equals_remove (st : CartState) (x : String)
    (q : ℚ) (hq : q ≤ 0)
    (hx : st.items.any (fun it => jsStrictEq it.id (.vStr x)) = true) :
    Cart.updateQuantity x (.vNum q) st = Cart.remove x st := by
  have ht : ratTrunc q ≤ 0 := ratTrunc_nonpos hq
  simp only [Cart.updateQuantity, hx, if_true, jsParseInt]
  rw [if_pos ht]

def exC5item : RawItem :=
  ⟨.vStr ("x"), .vStr ("X"), .vStr ("5"), .vNum 1, .vUndefined, .vUndefined⟩

/-- C5 witness: `updateQuantity("x", 0)` equals `remove("x")` on a
one-item cart. -/
theorem claim_C5_witness :
    Cart.updateQuantity ("x") (.vNum 0) ⟨[exC5item], none⟩ =
      Cart.remove ("x") ⟨[exC5item], none⟩ :=
  claim_C5_nonpos_update_equals_remove ⟨[exC5item], none⟩ ("x") 0 le_rfl
    (by decide)

/-! ## Claim C8 — undecodable storage resets to an empty cart -/

/-- C8: whenever the stored string cannot be decoded into an item list
(`JSON.parse` fails, or its result is not an array so the subsequent
`filter` throws inside the same `try`), `init` ends with an empty item
list; the failure is caught locally and the model, a total function,
returns normally — no exception propagates. -/
theorem claim_C8_init_empty_on_bad_decode (s : String)
    (h : decodeItemList s = none) : (Cart.init (some s)).items = [] := by
  by_cases he : (s == "") = true
  · simp [Cart.init, he]
  · simp [Cart.init, he, h]

/-- C8 witness: a concrete undecodable stored value. -/
theorem claim_C8_witness :
    decodeItemList ("not json") = none ∧
      (Cart.init (some ("not json"))).items = [] :=
  ⟨by decide, claim_C8_init_empty_on_bad_decode ("not json") (by decide)⟩

/-! ## Claim C2 — `updateQuantity` with a NaN parse is *not* a no-op -/

def exC2item : RawItem :=
  ⟨.vStr ("a"), .vStr ("A"), .vStr ("1"), .vNum 2, .vUndefined, .vUndefined⟩

def exC2st : CartState :=
  ⟨[exC2item], saveStr [exC2item]⟩

/-- C2 counterexample: on a cart containing id `"a"`, calling
`updateQuantity` with a value whose integer parse is `NaN` changes the
state (the quantity becomes `NaN` and is persisted), so the call is not
a no-op as the claim states. -/
theorem claim_C2_counterexample :
    jsParseInt (.vStr ("abc")) = none ∧
      Cart.updateQuantity ("a") (.vStr ("abc")) exC2st ≠ exC2st := by decide

/-- C2 amended: `NaN <= 0` is false, so the `else` branch runs: for an id
present in the list, `updateQuantity` with a NaN-parsing value sets the
first matching item's quantity to `NaN` and persists the updated list —
both the item list and the stored value change. -/
theorem claim_C2_nan_update_sets_nan (st : CartState) (x : String) (q : JSVal)
    (hq : jsParseInt q = none)
    (hx : st.items.any (fun it => jsStrictEq it.id (.vStr x)) = true) :
    Cart.updateQuantity x q st =
      { items := setFirstMatch (fun it => jsStrictEq it.id (.vStr x))
          (fun it => { it with quantity := .vNaN }) st.items,
        storage := saveStr (setFirstMatch (fun it => jsStrictEq it.id (.vStr x))
          (fun it => { it with quantity := .vNaN }) st.items) } := by
  simp only [Cart.updateQuantity, hx, if_true, hq]

/-- C2 witness: the amended behaviour at a concrete state. -/
theorem claim_C2_witness :
    Cart.updateQuantity ("a") (.vStr ("abc")) exC2st =
      { items := setFirstMatch (fun it => jsStrictEq it.id (.vStr ("a")))
          (fun it => { it with quantity := .vNaN }) exC2st.items,
        storage := saveStr (setFirstMatch (fun it => jsStrictEq it.id (.vStr ("a")))
          (fun it => { it with quantity := .vNaN }) exC2st.items) } :=
  claim_C2_nan_update_sets_nan exC2st ("a") (.vStr ("abc")) (by decide) (by decide)

/-! ## Claim C10 — `add` mutates the argument's `price` in place -/

def exC10bad : RawItem :=
  ⟨.vUndefined, .vStr ("N"), .vNum 5, .vUndefined, .vUndefined, .vUndefined⟩

/-- C10 counterexample: when `product.id` is falsy, `add` returns before
the price coercion, so even a truthy non-string `price` is *not*
overwritten — the claim as stated (unconditional on `id`) fails. -/
theorem claim_C10_counterexample :
    truthy exC10bad.price = true ∧ isStr exC10bad.price = false ∧
      (Cart.add exC10bad ⟨[], none⟩).2 = exC10bad := by decide

/-- C10 amended: provided `product.id` is truthy, `add` overwrites a
truthy non-string `product.price` with its string coercion on the
argument object itself (the second component of the model's result is
the argument object after the call), leaves `price` unchanged otherwise,
and never changes any other field of the argument. -/
theorem claim_C10_add_mutates_price_arg (p : RawItem) (st : CartState)
    (hid : truthy p.id = true) :
    (Cart.add p st).2 = addFixPrice p ∧
    (truthy p.price = true → isStr p.price = false →
      addFixPrice p = { p with price := .vStr (jsToString p.price) }) ∧
    (truthy p.price = false ∨ isStr p.price = true → addFixPrice p = p) := by
  refine ⟨?_, ?_, ?_⟩
  · simp [Cart.add, hid]
  · intro h1 h2
    simp [addFixPrice, h1, h2]
  · intro h
    rcases h with h | h
    · simp [addFixPrice, h]
    · simp [addFixPrice, h]

def exC10p : RawItem :=
  ⟨.vStr ("i"), .vStr ("N"), .vNum 100, .vUndefined, .vUndefined, .vUndefined⟩

/-- C10 witness: a numeric price `100` on the argument is overwritten in
place with the string `"100"`. -/
theorem claim_C10_witness :
    (Cart.add exC10p ⟨[], none⟩).2 = { exC10p with price := JSVal.vStr ("100") } := by
  have h := claim_C10_add_mutates_price_arg exC10p ⟨[], none⟩ (by decide)
  rw [h.1, h.2.1 (by decide) (by decide)]
  decide

/-! ## Claim C6 — behaviour of `add` -/

def exWidget : RawItem :=
  ⟨.vStr ("p1"), .vStr ("Widget"), .vStr ("10"), .vUndefined, .vUndefined,
    .vUndefined⟩

/-- C6: `add(product)` is a no-op on the state when `product.id` is
falsy; when an item with the same id exists (first match, no earlier
match) it increments that item's numeric quantity by exactly 1 in place
(no append); otherwise it appends the (price-coerced) product with
quantity 1; and adding the same product twice to an empty cart yields
exactly one item with that id and quantity 2. -/
theorem claim_C6_add_behaviour (p : RawItem) (st : CartState) :
    (truthy p.id = false → Cart.add p st = (st, p)) ∧
    (∀ (l1 : List RawItem) (it : RawItem) (l2 : List RawItem) (n : ℚ),
      truthy p.id = true →
      st.items = l1 ++ it :: l2 →
      (∀ j ∈ l1, jsStrictEq j.id p.id = false) →
      jsStrictEq it.id p.id = true →
      it.quantity = .vNum n →
      (Cart.add p st).1.items = l1 ++ { it with quantity := .vNum (n + 1) } :: l2) ∧
    (truthy p.id = true →
      (∀ j ∈ st.items, jsStrictEq j.id p.id = false) →
      (Cart.add p st).1.items =
        st.items ++ [{ addFixPrice p with quantity := .vNum 1 }]) ∧
    ((Cart.add exWidget (Cart.add exWidget ⟨[], none⟩).1).1.items =
      [{ exWidget with quantity := .vNum 2 }]) := by
  refine ⟨?_, ?_, ?_, ?_⟩
  · intro h
    simp [Cart.add, h]
  · intro l1 it l2 n hid hdec h1 h2 hq
    have hpid : (addFixPrice p).id = p.id := addFixPrice_id p
    have hmem : it ∈ st.items := by
      rw [hdec]; simp
    have hany : st.items.any (fun j => jsStrictEq j.id (addFixPrice p).id) = true := by
      rw [hpid]
      exact List.any_eq_true.mpr ⟨it, hmem, h2⟩
    simp only [Cart.add, hid, Bool.not_true, Bool.false_eq_true, if_false, hany,
      if_true]
    rw [hpid, hdec]
    rw [setFirstMatch_append _ _ l1 it l2 h1 h2, hq, jsAddInt_vNum]
    rw [Int.cast_one]
  · intro hid hall
    have hpid : (addFixPrice p).id = p.id := addFixPrice_id p
    have hany : st.items.any (fun j => jsStrictEq j.id (addFixPrice p).id) = false := by
      rw [hpid, List.any_eq_false]
      intro x hx
      simp [hall x hx]
    simp only [Cart.add, hid, Bool.not_true, Bool.false_eq_true, if_false, hany]
  · have step1 : (Cart.add exWidget (⟨[], none⟩ : CartState)).1 =
        ⟨[{ exWidget with quantity := JSVal.vNum 1 }],
          saveStr [{ exWidget with quantity := JSVal.vNum 1 }]⟩ := rfl
    rw [step1]
    have step2 : (Cart.add exWidget
        (⟨[{ exWidget with quantity := JSVal.vNum 1 }],
          saveStr [{ exWidget with quantity := JSVal.vNum 1 }]⟩ : CartState)).1.items =
        [{ exWidget with quantity := jsAddInt (JSVal.vNum 1) 1 }] := rfl
    rw [step2, jsAddInt_vNum]
    norm_num

/-- C6 witness: incrementing an existing quantity at a concrete state. -/
theorem claim_C6_witness :
    (Cart.add exWidget ⟨[{ exWidget with quantity := JSVal.vNum 1 }], none⟩).1.items =
      [{ exWidget with quantity := JSVal.vNum 2 }] := by
  have h := (claim_C6_add_behaviour exWidget
      ⟨[{ exWidget with quantity := JSVal.vNum 1 }], none⟩).2.1
    [] ({ exWidget with quantity := JSVal.vNum 1 }) [] 1 (by decide) rfl
    (by simp) (by decide) rfl
  have h2 : (1 : ℚ) + 1 = 2 := by norm_num
  rw [h2] at h
  simpa using h

/-! ## Claim C7 — `getTotal` -/

theorem line_eq_spec (it : RawItem) (h : priceQtyOk it = true) :
    optMul (some (linePrice it.price)) (lineQty it.quantity) =
      some (specPrice it * specLineQty it.quantity) := by
  unfold priceQtyOk at h
  rw [Bool.and_eq_true] at h
  obtain ⟨hp, hq⟩ := h
  have hprice : linePrice it.price = specPrice it := by
    cases hv : it.price
    case vStr s => simp [linePrice, specPrice, hv, isStr, strOf]
    all_goals (rw [hv] at hp; simp [isStr] at hp)
  have hqty : lineQty it.quantity = some (specLineQty it.quantity) := by
    cases hv : it.quantity
    case vNum q =>
      rw [hv] at hq
      have hq0 : ¬ (q = 0) := by simpa using hq
      simp [lineQty, truthy, specLineQty, jsToNumber, hq0]
    case vUndefined => simp [lineQty, truthy, specLineQty]
    all_goals (rw [hv] at hq; simp at hq)
  rw [hprice, hqty]
  rfl

theorem getTotal_fold (items : List RawItem) (a : ℚ)
    (h : items.all priceQtyOk = true) :
    items.foldl
      (fun tot it =>
        optAdd tot (optMul (some (linePrice it.price)) (lineQty it.quantity)))
      (some a) = some (a + specTotal items) := by
  induction items generalizing a with
  | nil => simp [specTotal]
  | cons it rest ih =>
    rw [List.all_cons, Bool.and_eq_true] at h
    obtain ⟨h1, h2⟩ := h
    rw [List.foldl_cons, line_eq_spec it h1]
    have hacc : optAdd (some a) (some (specPrice it * specLineQty it.quantity)) =
        some (a + specPrice it * specLineQty it.quantity) := rfl
    rw [hacc, ih _ h2]
    have : specTotal (it :: rest) =
        specPrice it * specLineQty it.quantity + specTotal rest := by
      simp [specTotal]
    rw [this]
    rw [add_assoc]

def exC7items : List RawItem :=
  [⟨.vStr ("x"), .vStr ("A"), .vStr ("$10.50"), .vNum 2, .vUndefined, .vUndefined⟩,
   ⟨.vStr ("y"), .vStr ("B"), .vStr ("5"), .vNum 1, .vUndefined, .vUndefined⟩]

/-- C7: for every item list whose prices are strings and whose quantities
are nonzero numbers or absent, `getTotal` returns the sum over all items
of (numeric price parsed from the price string after stripping non-digit
non-dot characters, defaulting to 0) times (the quantity, defaulting to 1
when missing); `getTotal` is a pure function of the item list (it takes
no state and returns none, so it can modify neither the items nor
storage); and on `[{price:"$10.50",quantity:2},{price:"5",quantity:1}]`
it returns 26. -/
theorem claim_C7_getTotal (items : List RawItem)
    (h : items.all priceQtyOk = true) :
    Cart.getTotal items = some (specTotal items) ∧
      Cart.getTotal exC7items = some 26 := by
  constructor
  · have hf := getTotal_fold items 0 h
    rw [Cart.getTotal, hf, zero_add]
  · have e1 : Cart.getTotal exC7items =
        some (0 + 1 * (((10 : ℕ) : ℚ) + ((50 : ℕ) : ℚ) / (10 : ℚ) ^ 2) * 2 +
          1 * (((5 : ℕ) : ℚ) + ((0 : ℕ) : ℚ) / (10 : ℚ) ^ 0) * 1) := rfl
    rw [e1]
    norm_num

/-- C7 witness: the hypothesis holds at the concrete example list and the
theorem yields both conjuncts there. -/
theorem claim_C7_witness :
    exC7items.all priceQtyOk = true ∧
      Cart.getTotal exC7items = some (specTotal exC7items) ∧
      Cart.getTotal exC7items = some 26 :=
  ⟨by decide, (claim_C7_getTotal exC7items (by decide)).1,
    (claim_C7_getTotal exC7items (by decide)).2⟩

/-! ## The `uniqueItems` fold: association-list lemmas -/

theorem quantity_set (e : RawItem) (x : JSVal) :
    ({ e with quantity := x }).quantity = x := rfl

theorem mkEntry_quantity (it : RawItem) :
    (mkEntry it).quantity = .vNum ((normQty it : ℤ) : ℚ) := rfl

theorem alookup_mem (k : String) (xs : List (String × RawItem)) (v : RawItem)
    (h : alookup k xs = some v) : (k, v) ∈ xs := by
  induction xs with
  | nil => simp [alookup] at h
  | cons kv rest ih =>
    obtain ⟨k0, w⟩ := kv
    by_cases h0 : (k0 == k) = true
    · have hk : k0 = k := by simpa using h0
      simp only [alookup, h0, if_true, Option.some.injEq] at h
      subst hk
      subst h
      exact List.mem_cons_self _ _
    · simp only [alookup, h0, Bool.false_eq_true, if_false] at h
      exact List.mem_cons_of_mem _ (ih h)

theorem alookup_append (k : String) (xs ys : List (String × RawItem)) :
    alookup k (xs ++ ys) =
      match alookup k xs with
      | some v => some v
      | none => alookup k ys := by
  induction xs with
  | nil => simp [alookup]
  | cons kv rest ih =>
    obtain ⟨k0, v⟩ := kv
    by_cases h : (k0 == k) = true
    · simp [alookup, h]
    · simp only [List.cons_append, alookup, h, Bool.false_eq_true, if_false]
      exact ih

theorem alookup_eq_none (k : String) (xs : List (String × RawItem)) :
    alookup k xs = none ↔ k ∉ xs.map Prod.fst := by
  induction xs with
  | nil => simp [alookup]
  | cons kv rest ih =>
    obtain ⟨k0, v⟩ := kv
    by_cases h : (k0 == k) = true
    · have hk : k0 = k := by simpa using h
      simp [alookup, h, hk]
    · have hne : k0 ≠ k := by simpa using h
      simp only [alookup, h, Bool.false_eq_true, if_false, List.map_cons,
        List.mem_cons]
      rw [ih]
      constructor
      · intro hnot hor
        rcases hor with h1 | h1
        · exact hne h1.symm
        · exact hnot h1
      · intro hnot h1
        exact hnot (Or.inr h1)

theorem abump_keys (k : String) (n : ℤ) (xs : List (String × RawItem)) :
    (abump k n xs).map Prod.fst = xs.map Prod.fst := by
  induction xs with
  | nil => rfl
  | cons kv rest ih =>
    obtain ⟨k0, v⟩ := kv
    by_cases h : (k0 == k) = true
    · simp [abump, h]
    · simp [abump, h, ih]

theorem alookup_abump_self (k : String) (n : ℤ) (xs : List (String × RawItem))
    (v : RawItem) (h : alookup k xs = some v) :
    alookup k (abump k n xs) =
      some { v with quantity := jsAddInt v.quantity n } := by
  induction xs with
  | nil => simp [alookup] at h
  | cons kv rest ih =>
    obtain ⟨k0, w⟩ := kv
    by_cases h0 : (k0 == k) = true
    · simp only [alookup, h0, if_true, Option.some.injEq] at h
      subst h
      simp [abump, alookup, h0]
    · simp only [alookup, h0, Bool.false_eq_true, if_false] at h
      simp only [abump, h0, Bool.false_eq_true, if_false, alookup]
      exact ih h

theorem alookup_abump_ne (k k2 : String) (n : ℤ) (xs : List (String × RawItem))
    (h : k2 ≠ k) : alookup k2 (abump k n xs) = alookup k2 xs := by
  induction xs with
  | nil => rfl
  | cons kv rest ih =>
    obtain ⟨k0, w⟩ := kv
    by_cases h0 : (k0 == k) = true
    · have hk : k0 = k := by simpa using h0
      have hne : (k0 == k2) = false := by
        have hne2 : k0 ≠ k2 := by
          rw [hk]
          exact fun hh => h hh.symm
        exact beq_eq_false_iff_ne.mpr hne2
      simp [abump, alookup, h0, hne]
    · simp only [abump, h0, Bool.false_eq_true, if_false, alookup]
      by_cases h1 : (k0 == k2) = true
      · simp [h1]
      · simp [h1, ih]

/-- Every entry of the association list carries a numeric quantity. -/
def accQtyNum (xs : List (String × RawItem)) : Prop :=
  ∀ kv ∈ xs, ∃ q : ℚ, kv.2.quantity = JSVal.vNum q

theorem accQtyNum_abump (k : String) (n : ℤ) (xs : List (String × RawItem))
    (h : accQtyNum xs) : accQtyNum (abump k n xs) := by
  induction xs with
  | nil => exact h
  | cons kv rest ih =>
    obtain ⟨k0, w⟩ := kv
    have hw := h (k0, w) (List.mem_cons_self _ _)
    have hrest : accQtyNum rest := fun kv hkv => h kv (List.mem_cons_of_mem _ hkv)
    by_cases h0 : (k0 == k) = true
    · simp only [abump, h0, if_true]
      intro kv hkv
      rcases List.mem_cons.mp hkv with hh | hh
      · subst hh
        obtain ⟨q, hq⟩ := hw
        refine ⟨q + (n : ℚ), ?_⟩
        show jsAddInt w.quantity n = _
        rw [show w.quantity = JSVal.vNum q from hq]
        rfl
      · exact hrest kv hh
    · simp only [abump, h0, Bool.false_eq_true, if_false]
      intro kv hkv
      rcases List.mem_cons.mp hkv with hh | hh
      · subst hh
        exact hw
      · exact ih hrest kv hh

theorem dedupeStep_eq (acc : List (String × RawItem)) (it : RawItem) :
    dedupeStep acc it =
      match alookup (itemKey it) acc with
      | some _ => abump (itemKey it) (normQty it) acc
      | none => acc ++ [(itemKey it, mkEntry it)] := rfl

theorem accQtyNum_step (acc : List (String × RawItem)) (it : RawItem)
    (h : accQtyNum acc) : accQtyNum (dedupeStep acc it) := by
  rw [dedupeStep_eq]
  cases hlk : alookup (itemKey it) acc with
  | some e => exact accQtyNum_abump _ _ _ h
  | none =>
    intro kv hkv
    rcases List.mem_append.mp hkv with hh | hh
    · exact h kv hh
    · rcases List.mem_singleton.mp hh with rfl
      exact ⟨((normQty it : ℤ) : ℚ), mkEntry_quantity it⟩

theorem accQtyNum_append_entry (acc : List (String × RawItem)) (it : RawItem)
    (h : accQtyNum acc) :
    accQtyNum (acc ++ [(itemKey it, mkEntry it)]) := by
  intro kv hkv
  rcases List.mem_append.mp hkv with hh | hh
  · exact h kv hh
  · rcases List.mem_singleton.mp hh with rfl
    exact ⟨_, mkEntry_quantity it⟩

theorem jsAddInt_comp (v : JSVal) (q : ℚ) (hv : v = .vNum q) (m n : ℤ) :
    jsAddInt (jsAddInt v m) n = jsAddInt v (m + n) := by
  subst hv
  show JSVal.vNum (q + (m : ℚ) + (n : ℚ)) = JSVal.vNum (q + ((m + n : ℤ) : ℚ))
  congr 1
  push_cast
  ring

/-- The central characterisation of `validate`'s dedup fold: looking up a
key in the folded `uniqueItems` object either finds the accumulator's
entry bumped by the total normalised quantity of that key among the
folded items, or the first folded item with that key, normalised, with
that total as its quantity. -/
theorem dedupe_fold_lookup (l : List RawItem) :
    ∀ (acc : List (String × RawItem)), accQtyNum acc → ∀ (k : String),
    alookup k (l.foldl dedupeStep acc) =
      match alookup k acc with
      | some e => some { e with quantity := jsAddInt e.quantity (totQty k l) }
      | none =>
        (l.find? (fun it => itemKey it == k)).map
          (fun f => { mkEntry f with quantity := .vNum ((totQty k l : ℤ) : ℚ) }) := by
  induction l with
  | nil =>
    intro acc hacc k
    rw [List.foldl_nil]
    cases hlk : alookup k acc with
    | none => rfl
    | some e =>
      obtain ⟨q, hq⟩ := hacc (k, e) (alookup_mem k acc e hlk)
      have hq' : e.quantity = JSVal.vNum q := hq
      have h2 : jsAddInt e.quantity (totQty k []) = e.quantity := by
        rw [hq']
        show JSVal.vNum (q + ((0 : ℤ) : ℚ)) = JSVal.vNum q
        norm_num
      show some e = some { e with quantity := jsAddInt e.quantity (totQty k []) }
      rw [h2]
  | cons it l ih =>
    intro acc hacc k
    rw [List.foldl_cons, dedupeStep_eq]
    by_cases hkk : (itemKey it == k) = true
    · have hk : itemKey it = k := by simpa using hkk
      subst hk
      have htot : totQty (itemKey it) (it :: l) =
          normQty it + totQty (itemKey it) l := by
        simp [totQty, List.filter_cons]
      cases hlk : alookup (itemKey it) acc with
      | some e0 =>
        obtain ⟨q0, hq0⟩ := hacc (itemKey it, e0) (alookup_mem _ _ _ hlk)
        have hq0' : e0.quantity = JSVal.vNum q0 := hq0
        rw [ih _ (accQtyNum_abump _ _ _ hacc) _,
          alookup_abump_self _ _ _ _ hlk]
        have hE : ({ e0 with quantity :=
              (jsAddInt (jsAddInt e0.quantity (normQty it))
                (totQty (itemKey it) l)) } : RawItem)
            = { e0 with quantity :=
              (jsAddInt e0.quantity (totQty (itemKey it) (it :: l))) } := by
          rw [jsAddInt_comp e0.quantity q0 hq0', htot]
        exact congrArg some hE
      | none =>
        rw [ih _ (accQtyNum_append_entry acc it hacc) _]
        have hlk2 : alookup (itemKey it) (acc ++ [(itemKey it, mkEntry it)]) =
            some (mkEntry it) := by
          rw [alookup_append, hlk]
          simp [alookup]
        have hfind : List.find? (fun j => itemKey j == itemKey it) (it :: l) =
            some it := by
          simp [List.find?_cons]
        rw [hlk2, hfind]
        have hE : ({ mkEntry it with quantity :=
              (jsAddInt ((mkEntry it).quantity) (totQty (itemKey it) l)) } : RawItem)
            = { mkEntry it with quantity :=
              (JSVal.vNum ((totQty (itemKey it) (it :: l) : ℤ) : ℚ)) } := by
          rw [mkEntry_quantity, jsAddInt_vNum, htot]
          push_cast
          ring_nf
        exact congrArg some hE
    · have hne : itemKey it ≠ k := by simpa using hkk
      have hkk2 : (itemKey it == k) = false := by simpa using hkk
      have htot : totQty k (it :: l) = totQty k l := by
        simp [totQty, List.filter_cons, hkk2]
      have hfind : (it :: l).find? (fun j => itemKey j == k) =
          l.find? (fun j => itemKey j == k) := by
        simp [List.find?_cons, hkk2]
      cases hlk : alookup (itemKey it) acc with
      | some e0 =>
        rw [ih _ (accQtyNum_abump _ _ _ hacc) _,
          alookup_abump_ne (itemKey it) k _ _ (fun hh => hne hh.symm), htot, hfind]
      | none =>
        rw [ih _ (accQtyNum_append_entry acc it hacc) _]
        have hlk2 : alookup k (acc ++ [(itemKey it, mkEntry it)]) =
            alookup k acc := by
          rw [alookup_append]
          cases h2 : alookup k acc with
          | some v => rfl
          | none => simp [alookup, hkk2]
        rw [hlk2, htot, hfind]

theorem dedupe_fold_keys (l : List RawItem) :
    ∀ acc : List (String × RawItem),
    (l.foldl dedupeStep acc).map Prod.fst =
      acc.map Prod.fst ++ firstDedupAux (acc.map Prod.fst) (l.map itemKey) := by
  induction l with
  | nil =>
    intro acc
    simp [firstDedupAux]
  | cons it l ih =>
    intro acc
    rw [List.foldl_cons, dedupeStep_eq, List.map_cons]
    cases hlk : alookup (itemKey it) acc with
    | some e0 =>
      have hmem : itemKey it ∈ acc.map Prod.fst := by
        by_contra hc
        have h2 := (alookup_eq_none (itemKey it) acc).mpr hc
        rw [hlk] at h2
        exact Option.noConfusion h2
      rw [ih (abump (itemKey it) (normQty it) acc), abump_keys]
      simp only [firstDedupAux]
      rw [if_pos hmem]
    | none =>
      have hnotmem : itemKey it ∉ acc.map Prod.fst :=
        (alookup_eq_none _ _).mp hlk
      rw [ih (acc ++ [(itemKey it, mkEntry it)])]
      simp only [List.map_append, List.map_cons, List.map_nil, firstDedupAux]
      rw [if_neg hnotmem, List.append_assoc]
      rfl

theorem mem_firstDedupAux (l : List String) :
    ∀ (seen : List String) (k : String), k ∈ firstDedupAux seen l → k ∉ seen := by
  induction l with
  | nil =>
    intro seen k h
    simp [firstDedupAux] at h
  | cons k0 rest ih =>
    intro seen k h
    simp only [firstDedupAux] at h
    by_cases h0 : k0 ∈ seen
    · rw [if_pos h0] at h
      exact ih seen k h
    · rw [if_neg h0] at h
      rcases List.mem_cons.mp h with rfl | h1
      · exact h0
      · intro hk
        exact ih (seen ++ [k0]) k h1 (List.mem_append_left _ hk)

theorem nodup_firstDedupAux (l : List String) :
    ∀ seen : List String, (firstDedupAux seen l).Nodup := by
  induction l with
  | nil =>
    intro seen
    simp [firstDedupAux]
  | cons k0 rest ih =>
    intro seen
    simp only [firstDedupAux]
    by_cases h0 : k0 ∈ seen
    · rw [if_pos h0]
      exact ih seen
    · rw [if_neg h0, List.nodup_cons]
      refine ⟨?_, ih (seen ++ [k0])⟩
      intro hmem
      exact mem_firstDedupAux rest (seen ++ [k0]) k0 hmem
        (List.mem_append_right _ (List.mem_singleton.mpr rfl))

theorem firstDedupAux_subset (l : List String) :
    ∀ (seen : List String) (k : String), k ∈ firstDedupAux seen l → k ∈ l := by
  induction l with
  | nil =>
    intro seen k h
    simp [firstDedupAux] at h
  | cons k0 rest ih =>
    intro seen k h
    simp only [firstDedupAux] at h
    by_cases h0 : k0 ∈ seen
    · rw [if_pos h0] at h
      exact List.mem_cons_of_mem _ (ih seen k h)
    · rw [if_neg h0] at h
      rcases List.mem_cons.mp h with rfl | h1
      · exact List.mem_cons_self _ _
      · exact List.mem_cons_of_mem _ (ih _ k h1)

/-- Wellformedness of one `uniqueItems` entry: its value's id is the
string key, the value passes the validity filter, its quantity is a
positive-integer number, and its price is a string. -/
def entryOK (kv : String × RawItem) : Prop :=
  kv.2.id = .vStr kv.1 ∧ validRaw kv.2 = true ∧
    isGoodQty kv.2.quantity = true ∧ isStr kv.2.price = true

theorem validRaw_id (it : RawItem) (h : validRaw it = true) :
    it.id = .vStr (itemKey it) := by
  unfold validRaw at h
  rw [Bool.and_eq_true, Bool.and_eq_true] at h
  obtain ⟨⟨h1, h2⟩, h3⟩ := h
  cases hv : it.id
  case vStr s => simp [itemKey, strOf, hv]
  all_goals (rw [hv] at h2; simp [isStr] at h2)

theorem normPriceV_isStr (v : JSVal) : isStr (normPriceV v) = true := by
  unfold normPriceV
  by_cases h : isStr v = true
  · rw [if_pos h]
    exact h
  · rw [if_neg h]
    rfl

theorem isGoodQty_intCast (n : ℤ) (h : 1 ≤ n) :
    isGoodQty (.vNum ((n : ℤ) : ℚ)) = true := by
  simp [isGoodQty, Rat.den_intCast, Rat.num_intCast, h]

theorem isGoodQty_bump (v : JSVal) (n : ℤ) (hv : isGoodQty v = true)
    (hn : 1 ≤ n) : isGoodQty (jsAddInt v n) = true := by
  cases v
  case vNum q =>
    simp only [isGoodQty, Bool.and_eq_true, beq_iff_eq, decide_eq_true_eq] at hv
    obtain ⟨h1, h2⟩ := hv
    have hq : q = ((q.num : ℤ) : ℚ) := ((Rat.den_eq_one_iff q).mp h1).symm
    rw [jsAddInt_vNum, hq, ← Int.cast_add]
    exact isGoodQty_intCast _ (by omega)
  all_goals simp [isGoodQty] at hv

theorem entryOK_mkEntry (it : RawItem) (h : validRaw it = true) :
    entryOK (itemKey it, mkEntry it) := by
  refine ⟨?_, ?_, ?_, ?_⟩
  · show (mkEntry it).id = .vStr (itemKey it)
    have h2 : (mkEntry it).id = it.id := rfl
    rw [h2]
    exact validRaw_id it h
  · show validRaw (mkEntry it) = true
    have h2 : validRaw (mkEntry it) = validRaw it := rfl
    rw [h2]
    exact h
  · show isGoodQty (mkEntry it).quantity = true
    rw [mkEntry_quantity]
    exact isGoodQty_intCast _ (normQty_pos it)
  · show isStr (mkEntry it).price = true
    exact normPriceV_isStr it.price

theorem entryOK_abump (k : String) (n : ℤ) (hn : 1 ≤ n)
    (xs : List (String × RawItem)) (h : ∀ kv ∈ xs, entryOK kv) :
    ∀ kv ∈ abump k n xs, entryOK kv := by
  induction xs with
  | nil =>
    intro kv hkv
    simp [abump] at hkv
  | cons kv0 rest ih =>
    obtain ⟨k0, w⟩ := kv0
    have hw := h (k0, w) (List.mem_cons_self _ _)
    have hrest : ∀ kv ∈ rest, entryOK kv :=
      fun kv hkv => h kv (List.mem_cons_of_mem _ hkv)
    by_cases h0 : (k0 == k) = true
    · simp only [abump, h0, if_true]
      intro kv hkv
      rcases List.mem_cons.mp hkv with rfl | hh
      · obtain ⟨e1, e2, e3, e4⟩ := hw
        refine ⟨e1, e2, ?_, e4⟩
        show isGoodQty (jsAddInt w.quantity n) = true
        exact isGoodQty_bump _ _ e3 hn
      · exact hrest kv hh
    · simp only [abump, h0, Bool.false_eq_true, if_false]
      intro kv hkv
      rcases List.mem_cons.mp hkv with rfl | hh
      · exact hw
      · exact ih hrest kv hh

theorem dedupe_fold_entryOK (l : List RawItem) :
    ∀ acc, (∀ kv ∈ acc, entryOK kv) → (∀ it ∈ l, validRaw it = true) →
    ∀ kv ∈ l.foldl dedupeStep acc, entryOK kv := by
  induction l with
  | nil =>
    intro acc hacc _ kv hkv
    exact hacc kv hkv
  | cons it l ih =>
    intro acc hacc hval kv hkv
    rw [List.foldl_cons, dedupeStep_eq] at hkv
    have hvit : validRaw it = true := hval it (List.mem_cons_self _ _)
    have hvl : ∀ j ∈ l, validRaw j = true :=
      fun j hj => hval j (List.mem_cons_of_mem _ hj)
    cases hlk : alookup (itemKey it) acc with
    | some e0 =>
      rw [hlk] at hkv
      exact ih _ (entryOK_abump _ _ (normQty_pos it) acc hacc) hvl kv hkv
    | none =>
      rw [hlk] at hkv
      refine ih _ ?_ hvl kv hkv
      intro kv2 hkv2
      rcases List.mem_append.mp hkv2 with hh | hh
      · exact hacc kv2 hh
      · rcases List.mem_singleton.mp hh with rfl
        exact entryOK_mkEntry it hvit

theorem filterValid_valid (l : List JSItem) :
    ∀ it ∈ filterValid l, validRaw it = true := by
  intro it hit
  unfold filterValid at hit
  rw [List.mem_filterMap] at hit
  obtain ⟨a, ha, hva⟩ := hit
  cases a with
  | none => simp [validItem] at hva
  | some b =>
    have hva2 : (if validRaw b = true then some b else none) = some it := hva
    by_cases hb : validRaw b = true
    · rw [if_pos hb] at hva2
      rw [← Option.some.inj hva2]
      exact hb
    · rw [if_neg hb] at hva2
      exact Option.noConfusion hva2

theorem values_filter_nil (k : String) (kvs : List (String × RawItem))
    (hco : ∀ kv ∈ kvs, kv.2.id = .vStr kv.1)
    (hnk : k ∉ kvs.map Prod.fst) :
    (kvs.map Prod.snd).filter (fun it => it.id == .vStr k) = [] := by
  induction kvs with
  | nil => rfl
  | cons kv rest ih =>
    obtain ⟨k0, v⟩ := kv
    have hid : v.id = JSVal.vStr k0 := hco (k0, v) (List.mem_cons_self _ _)
    have hk0 : k0 ≠ k := by
      intro hh
      exact hnk (by simp [hh])
    simp only [List.map_cons, List.filter_cons]
    have hvf : (v.id == JSVal.vStr k) = false := by
      simp [hid, hk0]
    rw [hvf]
    simp only [Bool.false_eq_true, if_false]
    exact ih (fun kv hkv => hco kv (List.mem_cons_of_mem _ hkv))
      (fun hh => hnk (List.mem_cons_of_mem _ hh))

theorem values_filter_lookup (k : String) (kvs : List (String × RawItem))
    (hco : ∀ kv ∈ kvs, kv.2.id = .vStr kv.1)
    (hnd : (kvs.map Prod.fst).Nodup) :
    (kvs.map Prod.snd).filter (fun it => it.id == .vStr k) =
      (alookup k kvs).toList := by
  induction kvs with
  | nil => rfl
  | cons kv rest ih =>
    obtain ⟨k0, v⟩ := kv
    have hid : v.id = JSVal.vStr k0 := hco (k0, v) (List.mem_cons_self _ _)
    have hco2 : ∀ kv ∈ rest, kv.2.id = .vStr kv.1 :=
      fun kv hkv => hco kv (List.mem_cons_of_mem _ hkv)
    rw [List.map_cons, List.nodup_cons] at hnd
    obtain ⟨hk0r, hndr⟩ := hnd
    have hk0r2 : k0 ∉ List.map Prod.fst rest := hk0r
    simp only [List.map_cons, List.filter_cons, alookup]
    by_cases h0 : (k0 == k) = true
    · have hke : k0 = k := by simpa using h0
      subst hke
      have hvk : (v.id == JSVal.vStr k0) = true := by simp [hid]
      rw [hvk, h0]
      simp only [if_true]
      rw [values_filter_nil k0 rest hco2 hk0r2]
      rfl
    · have hne : k0 ≠ k := by simpa using h0
      have h0f : (k0 == k) = false := by simpa using h0
      have hvf : (v.id == JSVal.vStr k) = false := by
        simp [hid, hne]
      rw [hvf, h0f]
      simp only [Bool.false_eq_true, if_false]
      exact ih hco2 hndr

theorem objectValues_perm (kvs : List (String × RawItem)) :
    (objectValues kvs).Perm (kvs.map Prod.snd) := by
  unfold objectValues
  refine List.Perm.map Prod.snd ?_
  have h1 : (List.insertionSort keyLe
      (kvs.filter (fun kv => isArrayIndexKey kv.1))).Perm
      (kvs.filter (fun kv => isArrayIndexKey kv.1)) :=
    List.perm_insertionSort _ _
  have h2 := List.filter_append_perm (fun kv => isArrayIndexKey kv.1) kvs
  exact (h1.append (List.Perm.refl _)).trans h2

theorem dedupe_coherent (l : List RawItem) (hval : ∀ it ∈ l, validRaw it = true) :
    ∀ kv ∈ dedupe l, kv.2.id = .vStr kv.1 := by
  intro kv hkv
  exact (dedupe_fold_entryOK l [] (by simp) hval kv hkv).1

theorem dedupe_nodup_keys (l : List RawItem) :
    ((dedupe l).map Prod.fst).Nodup := by
  unfold dedupe
  rw [dedupe_fold_keys l []]
  simp only [List.map_nil, List.nil_append]
  exact nodup_firstDedupAux _ _

theorem mkEntry_fix (it : RawItem) (hg : isGoodQty it.quantity = true)
    (hp : isStr it.price = true) : mkEntry it = it := by
  unfold mkEntry
  have hpe : normPriceV it.price = it.price := by
    unfold normPriceV
    rw [if_pos hp]
  cases hv : it.quantity
  case vNum q =>
    rw [hv] at hg
    simp only [isGoodQty, Bool.and_eq_true, beq_iff_eq, decide_eq_true_eq] at hg
    obtain ⟨h1, h2⟩ := hg
    have hq : q = ((q.num : ℤ) : ℚ) := ((Rat.den_eq_one_iff q).mp h1).symm
    have hnq : normQty it = q.num := by
      unfold normQty
      rw [show jsParseInt it.quantity = some (ratTrunc q) by rw [hv]; rfl]
      have ht : ratTrunc q = q.num := by
        conv_lhs => rw [hq]
        exact ratTrunc_intCast q.num
      rw [ht]
      simp only
      rw [if_neg (by omega)]
    rw [hnq, hpe, ← hq, ← hv]
  all_goals (rw [hv] at hg; simp [isGoodQty] at hg)

theorem filterValid_map_some (L : List RawItem)
    (h : ∀ it ∈ L, validRaw it = true) :
    filterValid (L.map some) = L := by
  induction L with
  | nil => rfl
  | cons a L ih =>
    have ha := h a (List.mem_cons_self _ _)
    have hL : ∀ it ∈ L, validRaw it = true :=
      fun it hit => h it (List.mem_cons_of_mem _ hit)
    show filterValid (some a :: L.map some) = a :: L
    unfold filterValid
    rw [List.filterMap_cons]
    have hva : validItem (some a) = some a := by
      show (if validRaw a = true then some a else none) = some a
      rw [if_pos ha]
    rw [hva]
    show a :: filterValid (L.map some) = a :: L
    rw [ih hL]

theorem dedupe_nodup_eq (L : List RawItem) :
    ∀ acc : List (String × RawItem),
    (∀ k ∈ L.map itemKey, k ∉ acc.map Prod.fst) →
    (L.map itemKey).Nodup →
    L.foldl dedupeStep acc = acc ++ L.map (fun it => (itemKey it, mkEntry it)) := by
  induction L with
  | nil =>
    intro acc _ _
    simp
  | cons it L ih =>
    intro acc hdis hnd
    rw [List.foldl_cons, dedupeStep_eq]
    have hlk : alookup (itemKey it) acc = none := by
      rw [alookup_eq_none]
      exact hdis (itemKey it) (by simp)
    rw [hlk]
    rw [List.map_cons, List.nodup_cons] at hnd
    obtain ⟨hnin, hnd2⟩ := hnd
    have hdis2 : ∀ k ∈ L.map itemKey,
        k ∉ (acc ++ [(itemKey it, mkEntry it)]).map Prod.fst := by
      intro k hk
      rw [List.map_append]
      intro hmem
      rcases List.mem_append.mp hmem with hh | hh
      · exact hdis k (List.mem_cons_of_mem _ hk) hh
      · have hke : k = itemKey it := by simpa using hh
        subst hke
        exact hnin hk
    rw [ih (acc ++ [(itemKey it, mkEntry it)]) hdis2 hnd2]
    rw [List.map_cons, List.append_assoc]
    rfl

theorem map_key_snd (P : List (String × RawItem))
    (h : ∀ kv ∈ P, itemKey kv.2 = kv.1) :
    (P.map Prod.snd).map (fun v => (itemKey v, v)) = P := by
  induction P with
  | nil => rfl
  | cons kv rest ih =>
    rw [List.map_cons, List.map_cons]
    rw [h kv (List.mem_cons_self _ _)]
    rw [ih (fun kv2 h2 => h kv2 (List.mem_cons_of_mem _ h2))]

instance : IsTotal (String × RawItem) keyLe :=
  ⟨fun a b => Nat.le_total (keyNat a.1) (keyNat b.1)⟩

instance : IsTrans (String × RawItem) keyLe :=
  ⟨fun _ _ _ h1 h2 => Nat.le_trans h1 h2⟩

theorem objectValues_structured (A B : List (String × RawItem))
    (hA : ∀ kv ∈ A, isArrayIndexKey kv.1 = true)
    (hB : ∀ kv ∈ B, isArrayIndexKey kv.1 = false)
    (hsorted : List.Sorted keyLe A) :
    objectValues (A ++ B) = A.map Prod.snd ++ B.map Prod.snd := by
  unfold objectValues
  have h1 : (A ++ B).filter (fun kv => isArrayIndexKey kv.1) = A := by
    rw [List.filter_append, List.filter_eq_self.mpr hA,
      List.filter_eq_nil_iff.mpr ?_, List.append_nil]
    intro kv hkv
    simp [hB kv hkv]
  have h2 : (A ++ B).filter (fun kv => !isArrayIndexKey kv.1) = B := by
    rw [List.filter_append]
    have hA2 : A.filter (fun kv => !isArrayIndexKey kv.1) = [] := by
      rw [List.filter_eq_nil_iff]
      intro kv hkv
      simp [hA kv hkv]
    have hB2 : B.filter (fun kv => !isArrayIndexKey kv.1) = B := by
      rw [List.filter_eq_self]
      intro kv hkv
      simp [hB kv hkv]
    rw [hA2, hB2, List.nil_append]
  rw [h1, h2, hsorted.insertionSort_eq, List.map_append]

/-! ## Claim C1 — merging keeps the *first*-seen entry's fields -/

def exC1a : RawItem :=
  ⟨.vStr ("a"), .vStr ("X"), .vStr ("10"), .vNum 2, .vUndefined, .vUndefined⟩

def exC1b : RawItem :=
  ⟨.vStr ("a"), .vStr ("Y"), .vStr ("20"), .vNum 3, .vUndefined, .vUndefined⟩

def exC1pair : List JSItem := [some exC1a, some exC1b]

def exC1merged : RawItem :=
  ⟨.vStr ("a"), .vStr ("X"), .vStr ("10"), .vNum 5, .vUndefined, .vUndefined⟩

/-- C1 counterexample: merging keeps the merge target created at the
*first* occurrence (`uniqueItems[id].quantity += qty` only adds to the
quantity), so on a list whose two same-id entries have names `"X"` then
`"Y"` the merged entry's name is `"X"`, not the last-seen `"Y"` the
claim states. -/
theorem claim_C1_counterexample :
    (validateItems exC1pair).map (fun it => it.name) = [JSVal.vStr ("X")] ∧
      (filterValid exC1pair).getLast? = some exC1b ∧
      exC1b.name = JSVal.vStr ("Y") ∧ JSVal.vStr ("X") ≠ JSVal.vStr ("Y") := by
  refine ⟨rfl, rfl, rfl, by decide⟩

theorem validate_filter_by_id (l : List JSItem) (k : String) :
    (validateItems l).filter (fun it => it.id == .vStr k) =
      (alookup k (dedupe (filterValid l))).toList := by
  have hval := filterValid_valid l
  have hco := dedupe_coherent (filterValid l) hval
  have hnd := dedupe_nodup_keys (filterValid l)
  have hperm : ((validateItems l).filter (fun it => it.id == .vStr k)).Perm
      (((dedupe (filterValid l)).map Prod.snd).filter
        (fun it => it.id == .vStr k)) :=
    List.Perm.filter _ (objectValues_perm _)
  rw [values_filter_lookup k _ hco hnd] at hperm
  cases hlk : alookup k (dedupe (filterValid l)) with
  | none =>
    rw [hlk] at hperm
    exact hperm.eq_nil
  | some v =>
    rw [hlk] at hperm
    exact List.perm_singleton.mp hperm

/-- C1 (amended): for every stored item list and id, the normalization
pass leaves at most one entry with that id; it exists iff some surviving
entry has that id, its quantity is the sum of the (normalised)
quantities of all surviving entries with that id, and its other fields
are those of the *first*-seen surviving entry with that id (price
normalised to a string).  In particular a list with two entries of the
same id and quantities 2 and 3 yields one entry with quantity 5. -/
theorem claim_C1_merge_first_seen :
    (∀ (l : List JSItem) (k : String),
      (validateItems l).filter (fun it => it.id == .vStr k) =
        match (filterValid l).find? (fun it => itemKey it == k) with
        | none => []
        | some f => [{ mkEntry f with quantity :=
            (JSVal.vNum ((totQty k (filterValid l) : ℤ) : ℚ)) }]) ∧
    validateItems exC1pair = [exC1merged] := by
  constructor
  · intro l k
    rw [validate_filter_by_id l k]
    unfold dedupe
    rw [dedupe_fold_lookup (filterValid l) []
      (fun kv hkv => absurd hkv (List.not_mem_nil kv)) k]
    cases hf : (filterValid l).find? (fun it => itemKey it == k) with
    | none => rfl
    | some f => rfl
  · have h1 : validateItems exC1pair =
        [{ mkEntry exC1a with quantity :=
          (JSVal.vNum (((2 : ℤ) : ℚ) + ((3 : ℤ) : ℚ))) }] := rfl
    rw [h1]
    have h2 : ((2 : ℤ) : ℚ) + ((3 : ℤ) : ℚ) = 5 := by norm_num
    rw [h2]
    rfl

/-! ## Claim C9 — order of the normalised list -/

def exC9num : List JSItem :=
  [some ⟨.vStr ("2"), .vStr ("B"), .vStr ("1"), .vNum 1, .vUndefined, .vUndefined⟩,
   some ⟨.vStr ("1"), .vStr ("A"), .vStr ("1"), .vNum 1, .vUndefined, .vUndefined⟩]

/-- C9 counterexample: `Object.values` enumerates array-index-like keys
(canonical numeric strings) first in ascending numeric order, so on
surviving ids `"2"`, `"1"` the normalization pass emits `"1"`, `"2"` —
it does not preserve the relative order of the surviving entries. -/
theorem claim_C9_counterexample :
    (filterValid exC9num).map (fun it => it.id) =
        [JSVal.vStr ("2"), JSVal.vStr ("1")] ∧
      (validateItems exC9num).map (fun it => it.id) =
        [JSVal.vStr ("1"), JSVal.vStr ("2")] := by
  refine ⟨rfl, rfl⟩

/-- C9 (amended): provided no surviving id is a canonical array-index
string (the ECMAScript integer-key ordering rule never fires), the
normalization pass preserves the relative order of the surviving
entries, each merged id appearing at the position of its first
occurrence; the id sequence of the output is exactly the
first-occurrence dedup of the surviving ids. -/
theorem claim_C9_order (l : List JSItem)
    (h : ∀ it ∈ filterValid l, isArrayIndexKey (itemKey it) = false) :
    (validateItems l).map (fun it => it.id) =
      (firstDedup ((filterValid l).map itemKey)).map JSVal.vStr := by
  have hval := filterValid_valid l
  have hco := dedupe_coherent (filterValid l) hval
  have hkeys : (dedupe (filterValid l)).map Prod.fst =
      firstDedupAux [] ((filterValid l).map itemKey) := by
    unfold dedupe
    rw [dedupe_fold_keys _ []]
    simp
  have hkeysidx : ∀ k ∈ (dedupe (filterValid l)).map Prod.fst,
      isArrayIndexKey k = false := by
    intro k hk
    rw [hkeys] at hk
    have hk2 := firstDedupAux_subset _ _ _ hk
    rw [List.mem_map] at hk2
    obtain ⟨it, hit, rfl⟩ := hk2
    exact h it hit
  have hov : objectValues (dedupe (filterValid l)) =
      (dedupe (filterValid l)).map Prod.snd := by
    unfold objectValues
    have hfil : (dedupe (filterValid l)).filter
        (fun kv => isArrayIndexKey kv.1) = [] := by
      rw [List.filter_eq_nil_iff]
      intro kv hkv
      have h2 := hkeysidx kv.1 (List.mem_map_of_mem Prod.fst hkv)
      simp [h2]
    have hfil2 : (dedupe (filterValid l)).filter
        (fun kv => !isArrayIndexKey kv.1) = dedupe (filterValid l) := by
      rw [List.filter_eq_self]
      intro kv hkv
      have h2 := hkeysidx kv.1 (List.mem_map_of_mem Prod.fst hkv)
      simp [h2]
    rw [hfil, hfil2]
    rfl
  show (objectValues (dedupe (filterValid l))).map (fun it => it.id) = _
  rw [hov, List.map_map]
  have hmc : (dedupe (filterValid l)).map ((fun it => it.id) ∘ Prod.snd) =
      (dedupe (filterValid l)).map (fun kv => JSVal.vStr kv.1) :=
    List.map_congr_left (fun kv hkv => hco kv hkv)
  rw [hmc]
  have h2 : (dedupe (filterValid l)).map (fun kv => JSVal.vStr kv.1) =
      ((dedupe (filterValid l)).map Prod.fst).map JSVal.vStr := by
    rw [List.map_map]
    rfl
  rw [h2, hkeys]
  rfl

def exC9ok : List JSItem :=
  [some ⟨.vStr ("b"), .vStr ("B"), .vStr ("1"), .vNum 1, .vUndefined, .vUndefined⟩,
   some ⟨.vStr ("a"), .vStr ("A"), .vStr ("1"), .vNum 1, .vUndefined, .vUndefined⟩]

/-- C9 witness: non-numeric ids `"b"`, `"a"` keep their insertion order. -/
theorem claim_C9_witness :
    (validateItems exC9ok).map (fun it => it.id) =
      (firstDedup ((filterValid exC9ok).map itemKey)).map JSVal.vStr :=
  claim_C9_order exC9ok (by decide)

/-! ## Claim C3 — positive-integer quantity invariant -/

def exC3item : RawItem :=
  ⟨.vStr ("a"), .vStr ("A"), .vStr ("1"), .vNum 2, .vUndefined, .vUndefined⟩

def exC3l : List JSItem := [some exC3item]

/-- C3 counterexample: starting from a normalised state, `updateQuantity`
with a NaN-parsing value stores `NaN` as a quantity, so the
positive-integer invariant is *not* preserved by every operation as the
claim states. -/
theorem claim_C3_counterexample :
    goodQtysB (validateItems exC3l) = true ∧
      goodQtysB ((Cart.updateQuantity ("a") (.vStr ("abc"))
        ⟨validateItems exC3l, none⟩).items) = false := by
  refine ⟨rfl, rfl⟩

/-- C3 (amended): the normalization pass establishes that every quantity
is a positive-integer number, and `add`, `remove`, `clear` preserve it,
as does `updateQuantity` *provided* the integer parse of its quantity
argument is not `NaN` (the NaN case stores `NaN`, breaking the
invariant). -/
theorem claim_C3_quantity_invariant :
    (∀ l : List JSItem, goodQtysB (validateItems l) = true) ∧
    (∀ (p : RawItem) (st : CartState), goodQtysB st.items = true →
      goodQtysB ((Cart.add p st).1.items) = true) ∧
    (∀ (x : String) (st : CartState), goodQtysB st.items = true →
      goodQtysB ((Cart.remove x st).items) = true) ∧
    (∀ (x : String) (q : JSVal) (st : CartState), goodQtysB st.items = true →
      jsParseInt q ≠ none →
      goodQtysB ((Cart.updateQuantity x q st).items) = true) ∧
    (∀ st : CartState, goodQtysB ((Cart.clear st).items) = true) := by
  refine ⟨?_, ?_, ?_, ?_, ?_⟩
  · intro l
    rw [goodQtysB, List.all_eq_true]
    intro it hit
    have hperm := objectValues_perm (dedupe (filterValid l))
    have hmem : it ∈ (dedupe (filterValid l)).map Prod.snd :=
      hperm.mem_iff.mp hit
    rw [List.mem_map] at hmem
    obtain ⟨kv, hkv, rfl⟩ := hmem
    exact (dedupe_fold_entryOK (filterValid l) []
      (fun kv2 hkv2 => absurd hkv2 (List.not_mem_nil kv2))
      (filterValid_valid l) kv hkv).2.2.1
  · intro p st h
    rw [goodQtysB, List.all_eq_true] at h ⊢
    intro it hit
    by_cases hid : truthy p.id = true
    · simp only [Cart.add, hid, Bool.not_true, Bool.false_eq_true, if_false] at hit
      by_cases hany : st.items.any
          (fun j => jsStrictEq j.id (addFixPrice p).id) = true
      · rw [if_pos hany] at hit
        rcases mem_setFirstMatch _ _ _ it hit with hmem | ⟨x, hx, rfl⟩
        · exact h it hmem
        · show isGoodQty (jsAddInt x.quantity 1) = true
          exact isGoodQty_bump _ _ (h x hx) le_rfl
      · rw [if_neg hany] at hit
        rcases List.mem_append.mp hit with hmem | hmem
        · exact h it hmem
        · rcases List.mem_singleton.mp hmem with rfl
          rfl
    · have hid2 : truthy p.id = false := by simpa using hid
      simp only [Cart.add, hid2, Bool.not_false, if_true] at hit
      exact h it hit
  · intro x st h
    rw [goodQtysB, List.all_eq_true] at h ⊢
    intro it hit
    exact h it (List.mem_of_mem_filter hit)
  · intro x q st h hq
    cases hpq : jsParseInt q with
    | none => exact absurd hpq hq
    | some n =>
      by_cases hany : st.items.any
          (fun it => jsStrictEq it.id (.vStr x)) = true
      · simp only [Cart.updateQuantity, hany, if_true, hpq]
        by_cases hn : n ≤ 0
        · rw [if_pos hn]
          rw [goodQtysB, List.all_eq_true] at h ⊢
          intro it hit
          exact h it (List.mem_of_mem_filter hit)
        · rw [if_neg hn]
          rw [goodQtysB, List.all_eq_true] at h ⊢
          intro it hit
          rcases mem_setFirstMatch _ _ _ it hit with hmem | ⟨y, hy, rfl⟩
          · exact h it hmem
          · show isGoodQty (JSVal.vNum ((n : ℤ) : ℚ)) = true
            exact isGoodQty_intCast n (by omega)
      · have hany2 : st.items.any
            (fun it => jsStrictEq it.id (.vStr x)) = false := by
          simpa using hany
        simp only [Cart.updateQuantity, hany2, Bool.false_eq_true, if_false]
        exact h
  · intro st
    rfl

/-- C3 witness: the amended updateQuantity preservation at a concrete
state. -/
theorem claim_C3_witness :
    goodQtysB ((Cart.updateQuantity ("a") (.vNum 3)
      ⟨[exC3item], none⟩).items) = true :=
  claim_C3_quantity_invariant.2.2.2.1 ("a") (.vNum 3) ⟨[exC3item], none⟩
    (by decide) (by decide)

/-! ## Claim C4 — idempotence of the normalization pass -/

theorem objectValues_round (kvs A B : List (String × RawItem))
    (hOK : ∀ kv ∈ kvs, entryOK kv)
    (hnd : (kvs.map Prod.fst).Nodup)
    (hAdef : A = List.insertionSort keyLe
      (kvs.filter (fun kv => isArrayIndexKey kv.1)))
    (hBdef : B = kvs.filter (fun kv => !isArrayIndexKey kv.1)) :
    validateItems (((A ++ B).map Prod.snd).map some) = (A ++ B).map Prod.snd := by
  have hA : ∀ kv ∈ A, isArrayIndexKey kv.1 = true := by
    intro kv hkv
    rw [hAdef] at hkv
    have hmem := (List.perm_insertionSort keyLe _).mem_iff.mp hkv
    exact (List.mem_filter.mp hmem).2
  have hB : ∀ kv ∈ B, isArrayIndexKey kv.1 = false := by
    intro kv hkv
    rw [hBdef] at hkv
    have h2 := (List.mem_filter.mp hkv).2
    simpa using h2
  have hsub : ∀ kv ∈ A ++ B, kv ∈ kvs := by
    intro kv hkv
    rcases List.mem_append.mp hkv with hh | hh
    · rw [hAdef] at hh
      exact List.mem_of_mem_filter
        ((List.perm_insertionSort keyLe _).mem_iff.mp hh)
    · rw [hBdef] at hh
      exact List.mem_of_mem_filter hh
  have hkey : ∀ kv ∈ A ++ B, itemKey kv.2 = kv.1 := by
    intro kv hkv
    have h2 := (hOK kv (hsub kv hkv)).1
    show strOf kv.2.id = kv.1
    rw [h2]
    rfl
  have hmemout : ∀ it ∈ (A ++ B).map Prod.snd, ∃ kv, kv ∈ kvs ∧ kv.2 = it := by
    intro it hit
    rw [List.mem_map] at hit
    obtain ⟨kv, hkv, rfl⟩ := hit
    exact ⟨kv, hsub kv hkv, rfl⟩
  have hvalid : ∀ it ∈ (A ++ B).map Prod.snd, validRaw it = true := by
    intro it hit
    obtain ⟨kv, hkv, rfl⟩ := hmemout it hit
    exact (hOK kv hkv).2.1
  have hfix : ∀ it ∈ (A ++ B).map Prod.snd, mkEntry it = it := by
    intro it hit
    obtain ⟨kv, hkv, rfl⟩ := hmemout it hit
    exact mkEntry_fix _ (hOK kv hkv).2.2.1 (hOK kv hkv).2.2.2
  have h4 : filterValid (((A ++ B).map Prod.snd).map some) =
      (A ++ B).map Prod.snd :=
    filterValid_map_some _ hvalid
  have h5 : ((A ++ B).map Prod.snd).map itemKey = (A ++ B).map Prod.fst := by
    rw [List.map_map]
    exact List.map_congr_left (fun kv hkv => hkey kv hkv)
  have hperm : (A ++ B).Perm kvs := by
    rw [hAdef, hBdef]
    exact ((List.perm_insertionSort keyLe _).append (List.Perm.refl _)).trans
      (List.filter_append_perm _ kvs)
  have h6 : ((A ++ B).map Prod.fst).Nodup :=
    (hperm.map Prod.fst).nodup_iff.mpr hnd
  have hdis : ∀ k ∈ ((A ++ B).map Prod.snd).map itemKey,
      k ∉ ([] : List (String × RawItem)).map Prod.fst := by
    intro k _ hk
    simp at hk
  have hnod2 : (((A ++ B).map Prod.snd).map itemKey).Nodup := by
    rw [h5]
    exact h6
  have h7 : ((A ++ B).map Prod.snd).foldl dedupeStep [] = A ++ B := by
    rw [dedupe_nodup_eq _ [] hdis hnod2, List.nil_append]
    have e1 : ((A ++ B).map Prod.snd).map (fun it => (itemKey it, mkEntry it)) =
        ((A ++ B).map Prod.snd).map (fun it => (itemKey it, it)) :=
      List.map_congr_left (fun it hit => by rw [hfix it hit])
    rw [e1]
    exact map_key_snd (A ++ B) hkey
  have hsorted : List.Sorted keyLe A := by
    rw [hAdef]
    exact List.sorted_insertionSort keyLe _
  show objectValues (dedupe (filterValid (((A ++ B).map Prod.snd).map some))) =
    (A ++ B).map Prod.snd
  rw [h4]
  show objectValues (((A ++ B).map Prod.snd).foldl dedupeStep []) = _
  rw [h7, objectValues_structured A B hA hB hsorted, ← List.map_append]

/-- C4: the normalization pass is idempotent — running `validate`'s list
transform on its own output (re-decoded as stored items) returns that
output unchanged: the second run drops nothing, re-normalises every
quantity and price to itself, merges nothing (ids are already unique),
and re-sorts an already-sorted key order. -/
theorem claim_C4_validate_idempotent (l : List JSItem) :
    validateItems ((validateItems l).map some) = validateItems l := by
  have hval := filterValid_valid l
  have hOK := dedupe_fold_entryOK (filterValid l) []
    (fun kv hkv => absurd hkv (List.not_mem_nil kv)) hval
  have hnd := dedupe_nodup_keys (filterValid l)
  exact objectValues_round (dedupe (filterValid l)) _ _ hOK hnd rfl rfl
